import Mathlib

/-!
Verification of the vercel-deno build/runtime adapter.

The development shallowly embeds the two core subsystems of the repository:

* the cache relocation pass `moveCacheFiles` (src `index.ts`), which rewrites
  absolute `file://` references inside `.graph` and `.buildinfo` cache files
  from an old build root to a new execution root, together with its helpers
  `deleteEmptyDirs` and `waitForPortFile`;
* the custom-runtime event loop `processEvents` (src `bootstrap`), which
  long-polls a control endpoint, lazily imports a user handler, and posts one
  response or error per invocation.

JavaScript strings are modeled as lists of characters, JavaScript objects as
association lists in insertion order (JSON-parsed objects have pairwise
distinct keys), and effectful code as explicit state passing, with fallible
operations returning `Except`.
-/

set_option linter.unusedVariables false

namespace VercelDeno

/-- A JavaScript string, modeled as its list of characters. -/
abbrev JsStr := List Char

/-- Embed a Lean string literal as a modeled JS string. -/
def str (s : String) : JsStr := s.data

/-- A JavaScript object, modeled as an association list in insertion order. -/
abbrev JsObject (α : Type) := List (JsStr × α)

/-- The list of keys of a JS object, in insertion order (`Object.keys`). -/
def objKeys {α : Type} (m : JsObject α) : List JsStr := m.map (·.1)

/-- Property read `m[k]`, as an option. -/
def getKey? {α : Type} (m : JsObject α) (k : JsStr) : Option α :=
  (m.find? (fun p => decide (p.1 = k))).map (·.2)

/-- Whether the object has key `k`. -/
def hasKey {α : Type} (m : JsObject α) (k : JsStr) : Bool :=
  m.any (fun p => decide (p.1 = k))

/-- Property write `m[k] = v`: overwrite in place if the key exists
(JS objects keep the original insertion position), append otherwise. -/
def setKey {α : Type} (m : JsObject α) (k : JsStr) (v : α) : JsObject α :=
  if hasKey m k then m.map (fun p => if p.1 = k then (k, v) else p) else m ++ [(k, v)]

/-- Property deletion `delete m[k]`. -/
def delKey {α : Type} (m : JsObject α) (k : JsStr) : JsObject α :=
  m.filter (fun p => decide (p.1 ≠ k))

/-! ### Data model of the cache files (src `types.ts`) -/

/-- A parsed `.graph` file. -/
structure Graph where
  deps : List JsStr
  version_hash : JsStr
deriving DecidableEq

/-- Per-file metadata inside a `.buildinfo` file. -/
structure FileInfo where
  version : JsStr
  signature : JsStr
  affectsGlobalScope : Bool
deriving DecidableEq, Inhabited

/-- The `program` field of a `.buildinfo` file.  The optional `fileNames` and
`semanticDiagnosticsPerFile` arrays default to `[]` when absent, exactly as the
destructuring defaults in `moveCacheFiles` do. -/
structure Program where
  fileNames : List JsStr
  fileInfos : JsObject FileInfo
  referencedMap : JsObject (List JsStr)
  exportedModulesMap : JsObject (List JsStr)
  semanticDiagnosticsPerFile : List JsStr
deriving DecidableEq

/-- A parsed `.buildinfo` file. -/
structure BuildInfo where
  program : Program
  version : JsStr
deriving DecidableEq

/-! ### The relocation pass of `moveCacheFiles`

`moveCacheFiles(genFileDir, oldPath, newPath, sourceFiles?)` computes
`workPathUri = "file://" + oldPath` and then patches every `.graph` and
`.buildinfo` file.  The per-file passes are embedded below; the state threads
the shared `sourceFiles` set (a JS `Set`, modeled as a duplicate-free list) and
the per-file `needsWrite` flag. -/

/-- The mutable state of one relocation pass: the shared discovered source
files set and the per-file `needsWrite` flag. -/
structure MoveState where
  sourceFiles : List JsStr
  needsWrite : Bool
deriving DecidableEq

/-- The old-root URI prefix `workPathUri` that the pass matches on. -/
def workPathUriOf (oldPath : JsStr) : JsStr := str "file://" ++ oldPath

/-- The suffix taken from a matching entry: `s.substring(workPathUri.length + 1)`
drops the prefix plus exactly one further character. -/
def relOf (workPathUri s : JsStr) : JsStr := s.drop (workPathUri.length + 1)

/-- The replacement written for a matching entry with suffix `rel`:
the template literal `file://${newPath}/${relative}`. -/
def updatedOf (newPath rel : JsStr) : JsStr :=
  str "file://" ++ newPath ++ str "/" ++ rel

/-- What the pass does to one string: rewrite it when it starts with the
old-root URI prefix, leave it unchanged otherwise. -/
def rewriteStr (workPathUri newPath s : JsStr) : JsStr :=
  if workPathUri.isPrefixOf s then updatedOf newPath (relOf workPathUri s) else s

/-- The in-place rewriting loop over an ordered array of strings.  This is the
body of the `deps` loop of the `.graph` pass and, verbatim, of the `fileNames`,
`semanticDiagnosticsPerFile` and per-key `refs` loops of the `.buildinfo`
pass: a matching element is replaced at its position by `updatedOf`, its
suffix is added to `sourceFiles`, and `needsWrite` is set. -/
def depsLoop (workPathUri newPath : JsStr) :
    List JsStr → MoveState → List JsStr × MoveState
  | [], st => ([], st)
  | dep :: rest, st =>
    if workPathUri.isPrefixOf dep then
      let relative := relOf workPathUri dep
      let updated := updatedOf newPath relative
      let (rest', st') := depsLoop workPathUri newPath rest
        { sourceFiles := st.sourceFiles.insert relative, needsWrite := true }
      (updated :: rest', st')
    else
      let (rest', st') := depsLoop workPathUri newPath rest st
      (dep :: rest', st')

/-- The `.graph` half of `moveCacheFiles`, applied to one parsed graph file. -/
def moveGraphFile (oldPath newPath : JsStr) (g : Graph) (sourceFiles : List JsStr) :
    Graph × MoveState :=
  let workPathUri := workPathUriOf oldPath
  let (deps', st) := depsLoop workPathUri newPath g.deps ⟨sourceFiles, false⟩
  ({ g with deps := deps' }, st)

/-- The `fileInfos` loop of the `.buildinfo` pass.  It iterates over the
`Object.keys` snapshot taken before any mutation; for a matching key it
executes `fileInfos[updated] = fileInfos[filename]; delete fileInfos[filename]`
on the current object.  The lookup is total on snapshots of the object's own
keys; the `default` fallback is never reached there. -/
def fileInfosLoop (workPathUri newPath : JsStr) :
    List JsStr → JsObject FileInfo → MoveState → JsObject FileInfo × MoveState
  | [], m, st => (m, st)
  | filename :: ks, m, st =>
    if workPathUri.isPrefixOf filename then
      let relative := relOf workPathUri filename
      let updated := updatedOf newPath relative
      let v := (getKey? m filename).getD default
      fileInfosLoop workPathUri newPath ks (delKey (setKey m updated v) filename)
        { sourceFiles := st.sourceFiles.insert relative, needsWrite := true }
    else
      fileInfosLoop workPathUri newPath ks m st

/-- The `referencedMap` / `exportedModulesMap` loop of the `.buildinfo` pass.
It iterates over the `Object.entries` snapshot; for each entry it first
rewrites the value array in place (the inner `refs` loop, which is the same
code as `depsLoop`), then, independently, rewrites the key itself if it
matches, reinserting the same array under the new key and deleting the old
one.  Arrays of a freshly parsed JSON document are unaliased, so the in-place
mutation of a non-matching entry's array is the in-place update of that entry. -/
def refMapLoop (workPathUri newPath : JsStr) :
    List (JsStr × List JsStr) → JsObject (List JsStr) → MoveState →
    JsObject (List JsStr) × MoveState
  | [], m, st => (m, st)
  | (filename, refs) :: es, m, st =>
    let (refs', st₁) := depsLoop workPathUri newPath refs st
    if workPathUri.isPrefixOf filename then
      let relative := relOf workPathUri filename
      let updated := updatedOf newPath relative
      refMapLoop workPathUri newPath es (delKey (setKey m updated refs') filename)
        { sourceFiles := st₁.sourceFiles.insert relative, needsWrite := true }
    else
      refMapLoop workPathUri newPath es (setKey m filename refs') st₁

/-- The `.buildinfo` half of `moveCacheFiles`, applied to one parsed build-info
file: the five loops run in source order (`fileInfos`, `referencedMap`,
`exportedModulesMap`, `fileNames`, `semanticDiagnosticsPerFile`), threading
one `needsWrite` flag and the shared `sourceFiles` set. -/
def moveBuildInfoFile (oldPath newPath : JsStr) (b : BuildInfo) (sourceFiles : List JsStr) :
    BuildInfo × MoveState :=
  let workPathUri := workPathUriOf oldPath
  let st0 : MoveState := ⟨sourceFiles, false⟩
  let (fileInfos', st1) :=
    fileInfosLoop workPathUri newPath (objKeys b.program.fileInfos) b.program.fileInfos st0
  let (referencedMap', st2) :=
    refMapLoop workPathUri newPath b.program.referencedMap b.program.referencedMap st1
  let (exportedModulesMap', st3) :=
    refMapLoop workPathUri newPath b.program.exportedModulesMap b.program.exportedModulesMap st2
  let (fileNames', st4) := depsLoop workPathUri newPath b.program.fileNames st3
  let (semanticDiagnosticsPerFile', st5) :=
    depsLoop workPathUri newPath b.program.semanticDiagnosticsPerFile st4
  ({ b with program :=
      { fileNames := fileNames'
        fileInfos := fileInfos'
        referencedMap := referencedMap'
        exportedModulesMap := exportedModulesMap'
        semanticDiagnosticsPerFile := semanticDiagnosticsPerFile' } }, st5)

/-! ### Match predicates over whole documents (used in statements) -/

/-- Whether some `deps` entry of a graph matches the old-root prefix. -/
def graphMatches (workPathUri : JsStr) (g : Graph) : Bool :=
  g.deps.any (fun s => workPathUri.isPrefixOf s)

/-- Whether some key or value element of a key+list map matches. -/
def refMapMatches (workPathUri : JsStr) (m : JsObject (List JsStr)) : Bool :=
  m.any (fun p => p.2.any (fun s => workPathUri.isPrefixOf s) || workPathUri.isPrefixOf p.1)

/-- Whether any string anywhere in a build-info document matches. -/
def buildInfoMatches (workPathUri : JsStr) (b : BuildInfo) : Bool :=
  (objKeys b.program.fileInfos).any (fun s => workPathUri.isPrefixOf s)
  || refMapMatches workPathUri b.program.referencedMap
  || refMapMatches workPathUri b.program.exportedModulesMap
  || b.program.fileNames.any (fun s => workPathUri.isPrefixOf s)
  || b.program.semanticDiagnosticsPerFile.any (fun s => workPathUri.isPrefixOf s)

/-! ### Round-trip side conditions (used in the statements about claim C5) -/

/-- A string is round-trippable for roots `uA → uB` when, if it matches `uA`
at all, it extends it with the `/` separator, and otherwise it does not match
`uB` either. -/
def goodStr (uA uB s : JsStr) : Bool :=
  if uA.isPrefixOf s then (uA ++ str "/").isPrefixOf s else !(uB.isPrefixOf s)

/-- All elements of a list are round-trippable. -/
def goodList (uA uB : JsStr) (l : List JsStr) : Bool := l.all (goodStr uA uB)

/-- All keys and value elements of a key+list map are round-trippable. -/
def goodRefMap (uA uB : JsStr) (m : JsObject (List JsStr)) : Bool :=
  m.all (fun p => goodStr uA uB p.1 && goodList uA uB p.2)

/-- All strings of a graph document are round-trippable. -/
def goodGraph (uA uB : JsStr) (g : Graph) : Bool := goodList uA uB g.deps

/-- All strings of a build-info document are round-trippable. -/
def goodBuildInfo (uA uB : JsStr) (b : BuildInfo) : Bool :=
  goodList uA uB (objKeys b.program.fileInfos)
  && goodRefMap uA uB b.program.referencedMap
  && goodRefMap uA uB b.program.exportedModulesMap
  && goodList uA uB b.program.fileNames
  && goodList uA uB b.program.semanticDiagnosticsPerFile

/-! ### Directory cleanup and port-file polling

A filesystem is modeled as an association list from directory paths to the
entry names listed in the directory.  A path is its list of components with
the innermost component first (so `/a/b/c` is `[c, b, a]` and the root is
`[]`); with this representation `dirname` is `List.tail`. -/

/-- Filesystem error codes distinguished by the repository's code. -/
inductive FsErr
  | enoent
  | eperm
  | enotempty
deriving DecidableEq

/-- A directory tree: directory path (innermost component first) to entries. -/
abbrev Fs := List (List JsStr × List JsStr)

/-- The `readdir` promise: the listing, or `ENOENT` for a missing directory. -/
def readdir (fs : Fs) (dir : List JsStr) : Except FsErr (List JsStr) :=
  match (fs.find? (fun p => decide (p.1 = dir))).map (·.2) with
  | some entries => .ok entries
  | none => .error .enoent

/-- The `rmdir` promise: removes an existing empty directory (also dropping its
name from the parent's listing); `ENOENT` when absent, `ENOTEMPTY` when not
empty, and always an error at the filesystem root. -/
def rmdir (fs : Fs) (dir : List JsStr) : Except FsErr Fs :=
  match dir with
  | [] => .error .eperm
  | name :: parent =>
    match (fs.find? (fun p => decide (p.1 = dir))).map (·.2) with
    | none => .error .enoent
    | some entries =>
      if entries.isEmpty then
        .ok ((fs.filter (fun p => decide (p.1 ≠ dir))).map
          (fun p => if p.1 = parent
            then (p.1, p.2.filter (fun e => decide (e ≠ name)))
            else p))
      else .error .enotempty

/-- `deleteEmptyDirs`: read the directory; stop if it is non-empty; otherwise
remove it and recurse on `dirname(dir)`.  There is no error handling in the
source: every filesystem error propagates.  `dirname` of the root is the root
itself; since `rmdir` of the root always errors, the recursion is cut off
there, so recursing on the tail of the path is faithful. -/
def deleteEmptyDirs (fs : Fs) (dir : List JsStr) : Except FsErr Fs :=
  match readdir fs dir with
  | .error e => .error e
  | .ok files =>
    if files.length ≠ 0 then .ok fs
    else
      match rmdir fs dir with
      | .error e => .error e
      | .ok fs' =>
        match dir with
        | [] => .ok fs'
        | _ :: parent => deleteEmptyDirs fs' parent

/-- One observable outcome of `waitForPortFile`: either a read of the port
file succeeded and its text is returned, or the abort signal fired first and
the promise resolves without a value. -/
def waitForPortFile (polls : List (Except FsErr JsStr)) : Except FsErr (Option JsStr) :=
  match polls with
  | [] => .ok none
  | r :: rs =>
    match r with
    | .ok data => .ok (some data)
    | .error e => if e ≠ FsErr.enoent then .error e else waitForPortFile rs

/-! ### The runtime event loop (src `bootstrap`)

The loop is embedded as a deterministic interpreter over a scripted
environment: the finite list of responses the control endpoint returns to
`invocation/next` polls, the outcome of the dynamic handler import, the
behavior of the (external) URL and base64 collaborators, and the statuses the
control endpoint returns to the response/error POSTs.  The `_X_AMZN_TRACE_ID`
environment-variable bookkeeping of `nextInvocation` is a process-global side
channel no claim touches and is not modeled. -/

/-- Header maps of the wire formats. -/
abbrev Headers := List (JsStr × JsStr)

/-- Header lookup, case handling elided (headers are stored lowercased). -/
def getHeader (hs : Headers) (name : JsStr) : Option JsStr :=
  (hs.find? (fun p => decide (p.1 = name))).map (·.2)

/-- The wire request `VercelRequestPayload` parsed from `event.body`. -/
structure WireRequest where
  method : JsStr
  path : JsStr
  headers : Headers
  body : JsStr

/-- The platform-native request handed to the handler. -/
structure Request where
  url : JsStr
  method : JsStr
  headers : Headers
  body : List Nat

/-- A handler's `Response` as far as the loop consumes it: status, headers and
the result of draining the body stream (which may reject). -/
structure JsResponse where
  status : Nat
  headers : Headers
  bodyDrain : Except JsStr (List Nat)

/-- `new Response()`: the empty default substituted for a non-`Response`
handler result. -/
def emptyResponse : JsResponse := { status := 200, headers := [], bodyDrain := .ok [] }

/-- The wire response `VercelResponsePayload`. -/
structure WireResponse where
  statusCode : Nat
  headers : Headers
  encoding : JsStr
  body : JsStr

/-- A user handler: a JS function from the request to a promise that either
rejects or resolves, possibly with a non-`Response` value (`none`). -/
abbrev HandlerFn := Request → Except JsStr (Option JsResponse)

/-- The value of the module-level `handler` variable once it is truthy. -/
inductive HandlerVal
  | notCallable
  | callable (f : HandlerFn)

/-- The outcome of `await import(_HANDLER)` followed by
`handler = mod.default`: the import may reject, the default export may be
falsy (the variable stays unset), truthy but not a function, or callable. -/
inductive ImportOutcome
  | rejects (e : JsStr)
  | falsyDefault
  | truthyNotCallable
  | callable (f : HandlerFn)

/-- The event object parsed from an `invocation/next` body; `bodyParse` is
the result of `JSON.parse(event.body)` (`none` = the parse throws). -/
structure InvEvent where
  bodyParse : Option WireRequest

/-- One scripted response of the control endpoint to `invocation/next`.
`eventParse` is the result of `JSON.parse(res.body)` (`none` = the parse
throws, which happens outside the loop's try/catch and is fatal). -/
structure NextResp where
  status : Nat
  traceId : Option JsStr
  awsRequestId : Option JsStr
  eventParse : Option InvEvent

/-- The scripted environment of one runtime process. -/
structure RuntimeEnv where
  importHandler : ImportOutcome
  buildUrl : JsStr → JsStr → Except JsStr JsStr
  decodeBase64 : JsStr → Except JsStr (List Nat)
  encodeBase64 : List Nat → JsStr
  responseStatus : JsStr → Nat
  errorStatus : JsStr → Nat

/-- Which endpoint one POST went to. -/
inductive PostKind
  | response
  | error
deriving DecidableEq

/-- One POST issued by the loop, tagged with its invocation identifier. -/
structure Post where
  awsRequestId : JsStr
  kind : PostKind
deriving DecidableEq

/-- Counters and the POST log accumulated while the loop runs. -/
structure RunAcc where
  posts : List Post
  importAttempts : Nat
  handlerCalls : Nat

/-- How a finite run of the loop ended: the script was exhausted with the loop
still alive (it would block on the next long-poll), or a fatal error escaped. -/
inductive RunOutcome
  | scriptDone
  | fatal (e : JsStr)

/-- The observable result of running the loop over a script. -/
structure RunResult where
  posts : List Post
  importAttempts : Nat
  handlerCalls : Nat
  outcome : RunOutcome

/-- The body of the `try` block once a handler value is at hand: parse the
wire request, build the base URL from the forwarded headers (a missing header
interpolates as the text `undefined`), resolve the path, decode the base64
body, invoke the handler, substitute the empty response for a non-`Response`
result, drain the body, and build the wire response.  Returns how many times
the handler was called (0 or 1) and the result or the caught error. -/
def invokeBody (env : RuntimeEnv) (h : HandlerVal) (event : InvEvent) :
    Nat × Except JsStr WireResponse :=
  match event.bodyParse with
  | none => (0, .error (str "invalid event body JSON"))
  | some data =>
    let base := (getHeader data.headers (str "x-forwarded-proto")).getD (str "undefined")
      ++ str "://" ++ (getHeader data.headers (str "x-forwarded-host")).getD (str "undefined")
    match env.buildUrl data.path base with
    | .error e => (0, .error e)
    | .ok href =>
      match env.decodeBase64 data.body with
      | .error e => (0, .error e)
      | .ok bodyBytes =>
        let req : Request :=
          { url := href, method := data.method, headers := data.headers, body := bodyBytes }
        match h with
        | .notCallable => (0, .error (str "handler is not a function"))
        | .callable f =>
          match f req with
          | .error e => (1, .error e)
          | .ok resOpt =>
            let res := resOpt.getD emptyResponse
            match res.bodyDrain with
            | .error e => (1, .error e)
            | .ok bytes =>
              (1, .ok { statusCode := res.status, headers := res.headers,
                        encoding := str "base64", body := env.encodeBase64 bytes })

/-- The whole `try` block of one loop iteration: when the `handler` variable
is still unset, attempt the dynamic import first (the assignment
`handler = mod.default` persists even when the subsequent callability check
throws).  Returns the new handler variable, the number of import attempts
(0 or 1), the number of handler calls (0 or 1), and the result or caught
error. -/
def tryInvoke (env : RuntimeEnv) (handler : Option HandlerVal) (event : InvEvent) :
    Option HandlerVal × Nat × Nat × Except JsStr WireResponse :=
  match handler with
  | some h =>
    let (c, r) := invokeBody env h event
    (some h, 0, c, r)
  | none =>
    match env.importHandler with
    | .rejects e => (none, 1, 0, .error e)
    | .falsyDefault => (none, 1, 0, .error (str "Failed to load handler function"))
    | .truthyNotCallable =>
      (some .notCallable, 1, 0, .error (str "Failed to load handler function"))
    | .callable f =>
      let (c, r) := invokeBody env (.callable f) event
      (some (.callable f), 1, c, r)

/-- `processEvents`, run over a finite script of control-endpoint responses.
Each iteration long-polls (`nextInvocation`): a non-200 status, a missing
`lambda-runtime-aws-request-id` header, or an unparseable body is fatal (these
happen outside the try/catch).  Then the try block runs; its success is POSTed
to the response endpoint, a caught error to the error endpoint, and in either
case a non-202 status on that POST is fatal.  Only then is the next long-poll
issued. -/
def processEvents (env : RuntimeEnv) :
    List NextResp → Option HandlerVal → RunAcc → RunResult
  | [], handler, acc =>
    { posts := acc.posts, importAttempts := acc.importAttempts,
      handlerCalls := acc.handlerCalls, outcome := .scriptDone }
  | r :: rs, handler, acc =>
    if r.status ≠ 200 then
      { posts := acc.posts, importAttempts := acc.importAttempts,
        handlerCalls := acc.handlerCalls,
        outcome := .fatal (str "Unexpected invocation next response") }
    else
      match r.awsRequestId with
      | none =>
        { posts := acc.posts, importAttempts := acc.importAttempts,
          handlerCalls := acc.handlerCalls,
          outcome := .fatal (str "Did not receive aws request id header") }
      | some awsRequestId =>
        match r.eventParse with
        | none =>
          { posts := acc.posts, importAttempts := acc.importAttempts,
            handlerCalls := acc.handlerCalls,
            outcome := .fatal (str "invalid invocation JSON") }
        | some event =>
          let (handler', imp, calls, res) := tryInvoke env handler event
          let acc' : RunAcc :=
            { posts := acc.posts, importAttempts := acc.importAttempts + imp,
              handlerCalls := acc.handlerCalls + calls }
          match res with
          | .ok result =>
            let acc'' : RunAcc := { acc' with
              posts := acc'.posts ++ [⟨awsRequestId, PostKind.response⟩] }
            if env.responseStatus awsRequestId = 202 then
              processEvents env rs handler' acc''
            else
              { posts := acc''.posts, importAttempts := acc''.importAttempts,
                handlerCalls := acc''.handlerCalls,
                outcome := .fatal (str "Unexpected invocation response response") }
          | .error e =>
            let acc'' : RunAcc := { acc' with
              posts := acc'.posts ++ [⟨awsRequestId, PostKind.error⟩] }
            if env.errorStatus awsRequestId = 202 then
              processEvents env rs handler' acc''
            else
              { posts := acc''.posts, importAttempts := acc''.importAttempts,
                handlerCalls := acc''.handlerCalls,
                outcome := .fatal (str "Unexpected invocation error response") }

/-- The empty accumulator the process starts with. -/
def zeroAcc : RunAcc := { posts := [], importAttempts := 0, handlerCalls := 0 }

/-- Run the whole loop over a script from the initial state. -/
def runLoop (env : RuntimeEnv) (script : List NextResp) : RunResult :=
  processEvents env script none zeroAcc

/-- The top-level runtime entry `processEvents().catch((err) => Deno.exit(1))`:
a fatal error exits the process with code 1; while the loop is alive there is
no exit code. -/
def runtimeExitCode (env : RuntimeEnv) (script : List NextResp) : Option Nat :=
  match (runLoop env script).outcome with
  | .fatal _ => some 1
  | .scriptDone => none

/-! ### Concrete fixtures used by witnesses and counterexamples -/

/-- A sample `FileInfo` value. -/
def fiV : FileInfo := ⟨str "v1", str "sig1", false⟩

/-- A build-info document whose `fileInfos` keys collide under relocation from
`/a` to `/a/b`: the rewrite of `file:///a/x` is the pre-existing key
`file:///a/b/x`. -/
def cexBuildInfo : BuildInfo :=
  { program :=
      { fileNames := []
        fileInfos := [(str "file:///a/x", fiV), (str "file:///a/b/x", fiV)]
        referencedMap := []
        exportedModulesMap := []
        semanticDiagnosticsPerFile := [] }
    version := str "4.5" }

/-- A well-behaved build-info document rooted at `/a`. -/
def okBuildInfo : BuildInfo :=
  { program :=
      { fileNames := [str "file:///a/f.ts"]
        fileInfos := [(str "file:///a/x.ts", fiV), (str "https://deno.land/std/mod.ts", fiV)]
        referencedMap :=
          [(str "file:///a/k.ts", [str "file:///a/v.ts", str "https://deno.land/x"])]
        exportedModulesMap := [(str "https://deno.land/y", [str "file:///a/w.ts"])]
        semanticDiagnosticsPerFile := [str "file:///a/d.ts"] }
    version := str "4.5" }

/-- A well-behaved graph document rooted at `/a`. -/
def okGraph : Graph :=
  { deps := [str "file:///a/x.ts", str "https://deno.land/std/mod.ts"]
    version_hash := str "abc" }

/-- A graph whose single dep extends the old root `/a` with the separator `X`
rather than `/`. -/
def badSepGraph : Graph := { deps := [str "file:///aXy"], version_hash := str "abc" }

/-- A well-formed wire request. -/
def wireOk : WireRequest :=
  { method := str "GET", path := str "/"
    headers := [(str "x-forwarded-proto", str "https"), (str "x-forwarded-host", str "example.com")]
    body := str "" }

/-- A parseable invocation event. -/
def evOk : InvEvent := ⟨some wireOk⟩

/-- A healthy control-endpoint response carrying the given request id. -/
def nrOk (id : String) : NextResp :=
  { status := 200, traceId := none, awsRequestId := some (str id), eventParse := some evOk }

/-- A control-endpoint response with status 500. -/
def nr500 : NextResp :=
  { status := 500, traceId := none, awsRequestId := some (str "aws-0"), eventParse := some evOk }

/-- A handler that always returns an empty 200 response. -/
def okHandler : HandlerFn :=
  fun _ => .ok (some { status := 200, headers := [], bodyDrain := .ok [] })

/-- A healthy scripted environment: the import yields `okHandler` and every
POST is answered with 202. -/
def envOk : RuntimeEnv :=
  { importHandler := .callable okHandler
    buildUrl := fun path base => .ok (base ++ path)
    decodeBase64 := fun _ => .ok []
    encodeBase64 := fun _ => str ""
    responseStatus := fun _ => 202
    errorStatus := fun _ => 202 }

/-- The same environment with a handler module whose import rejects. -/
def envRejects : RuntimeEnv := { envOk with importHandler := .rejects (str "boom") }

/-! ## Theorems -/

theorem str_slash : str "/" = ['/'] := rfl

theorem updatedOf_eq (np rel : JsStr) :
    updatedOf np rel = workPathUriOf np ++ '/' :: rel := by
  unfold updatedOf workPathUriOf
  rw [List.append_assoc]
  rfl

theorem isPrefixOf_append_cons (u : JsStr) (c : Char) (s : JsStr) :
    u.isPrefixOf (u ++ c :: s) = true := by
  rw [List.isPrefixOf_iff_prefix]
  exact ⟨c :: s, rfl⟩

theorem relOf_append_cons (u : JsStr) (c : Char) (s : JsStr) :
    relOf u (u ++ c :: s) = s := by
  simp [relOf, List.drop_append]

theorem rewriteStr_matching {u s : JsStr} (np : JsStr) (h : u.isPrefixOf s = true) :
    rewriteStr u np s = updatedOf np (relOf u s) := by
  simp [rewriteStr, h]

theorem rewriteStr_not_matching {u s : JsStr} (np : JsStr) (h : u.isPrefixOf s = false) :
    rewriteStr u np s = s := by
  simp [rewriteStr, h]

theorem insert_nodup {l : List JsStr} (a : JsStr) (h : l.Nodup) : (l.insert a).Nodup := by
  by_cases hm : a ∈ l
  · rw [List.insert_of_mem hm]; exact h
  · rw [List.insert_of_not_mem hm]; exact h.cons hm

/-! ### Lemmas about the array-rewriting loop -/

theorem depsLoop_fst (u np : JsStr) (l : List JsStr) (st : MoveState) :
    (depsLoop u np l st).1 = l.map (rewriteStr u np) := by
  induction l generalizing st with
  | nil => rfl
  | cons d rest ih =>
    by_cases h : u.isPrefixOf d = true
    · simp [depsLoop, h, ih, rewriteStr]
    · simp [depsLoop, h, ih, rewriteStr, Bool.not_eq_true _ ▸ h]

theorem depsLoop_needsWrite (u np : JsStr) (l : List JsStr) (st : MoveState) :
    (depsLoop u np l st).2.needsWrite
      = (st.needsWrite || l.any (fun s => u.isPrefixOf s)) := by
  induction l generalizing st with
  | nil => simp [depsLoop]
  | cons d rest ih =>
    by_cases h : u.isPrefixOf d = true
    · simp [depsLoop, h, ih]
    · simp [depsLoop, h, ih]

theorem depsLoop_sf_mono (u np : JsStr) (l : List JsStr) (st : MoveState) {x : JsStr}
    (hx : x ∈ st.sourceFiles) : x ∈ (depsLoop u np l st).2.sourceFiles := by
  induction l generalizing st with
  | nil => exact hx
  | cons d rest ih =>
    by_cases h : u.isPrefixOf d = true
    · simp only [depsLoop, h, if_true]
      exact ih _ (List.mem_insert_of_mem hx)
    · simp only [depsLoop, h, if_false, Bool.false_eq_true]
      exact ih _ hx

theorem depsLoop_sf_nodup (u np : JsStr) (l : List JsStr) (st : MoveState)
    (h : st.sourceFiles.Nodup) : (depsLoop u np l st).2.sourceFiles.Nodup := by
  induction l generalizing st with
  | nil => exact h
  | cons d rest ih =>
    by_cases hm : u.isPrefixOf d = true
    · simp only [depsLoop, hm, if_true]
      exact ih _ (insert_nodup _ h)
    · simp only [depsLoop, hm, if_false, Bool.false_eq_true]
      exact ih _ h

theorem depsLoop_discovers (u np : JsStr) (l : List JsStr) (st : MoveState) {s : JsStr}
    (hs : s ∈ l) (hm : u.isPrefixOf s = true) :
    relOf u s ∈ (depsLoop u np l st).2.sourceFiles := by
  induction l generalizing st with
  | nil => cases hs
  | cons d rest ih =>
    rcases List.mem_cons.mp hs with rfl | hs'
    · simp only [depsLoop, hm, if_true]
      exact depsLoop_sf_mono _ _ _ _ (List.mem_insert_self _ _)
    · by_cases hmd : u.isPrefixOf d = true
      · simp only [depsLoop, hmd, if_true]
        exact ih _ hs'
      · simp only [depsLoop, hmd, if_false, Bool.false_eq_true]
        exact ih _ hs'

theorem depsLoop_nomatch (u np : JsStr) (l : List JsStr) (st : MoveState)
    (h : l.any (fun s => u.isPrefixOf s) = false) : depsLoop u np l st = (l, st) := by
  induction l generalizing st with
  | nil => rfl
  | cons d rest ih =>
    simp only [List.any_cons, Bool.or_eq_false_iff] at h
    simp [depsLoop, h.1, ih _ h.2]

/-! ### Lemmas about the JS object model -/

theorem objKeys_append {α : Type} (m₁ m₂ : JsObject α) :
    objKeys (m₁ ++ m₂) = objKeys m₁ ++ objKeys m₂ := by
  simp [objKeys]

theorem objKeys_cons {α : Type} (p : JsStr × α) (m : JsObject α) :
    objKeys (p :: m) = p.1 :: objKeys m := by
  simp [objKeys]

theorem hasKey_iff {α : Type} (m : JsObject α) (k : JsStr) :
    hasKey m k = true ↔ k ∈ objKeys m := by
  rw [hasKey, List.any_eq_true, objKeys, List.mem_map]
  constructor
  · rintro ⟨p, hp, hpk⟩
    exact ⟨p, hp, by simpa using hpk⟩
  · rintro ⟨p, hp, hpk⟩
    exact ⟨p, hp, by simpa using hpk⟩

theorem setKey_not_mem {α : Type} {m : JsObject α} {k : JsStr} (h : k ∉ objKeys m) (v : α) :
    setKey m k v = m ++ [(k, v)] := by
  rw [setKey, if_neg]
  intro hh
  exact h ((hasKey_iff m k).mp hh)

theorem map_setfn_eq_self {α : Type} {m : JsObject α} {k : JsStr} (w : α)
    (h : k ∉ objKeys m) :
    m.map (fun p => if p.1 = k then (k, w) else p) = m := by
  induction m with
  | nil => rfl
  | cons p rest ih =>
    simp only [objKeys_cons, List.mem_cons, not_or] at h
    simp [if_neg (Ne.symm h.1), ih h.2]

theorem setKey_mid {α : Type} (d r n : JsObject α) (k : JsStr) (v w : α)
    (hd : k ∉ objKeys d) (hr : k ∉ objKeys r) (hn : k ∉ objKeys n) :
    setKey (d ++ (k, v) :: r ++ n) k w = d ++ (k, w) :: r ++ n := by
  have hk : hasKey (d ++ (k, v) :: r ++ n) k = true := by
    rw [hasKey_iff]
    simp [objKeys_append, objKeys_cons]
  rw [setKey, if_pos hk]
  simp only [List.map_append, List.map_cons]
  rw [map_setfn_eq_self w hd, map_setfn_eq_self w hr, map_setfn_eq_self w hn]
  simp

theorem delKey_not_mem {α : Type} {m : JsObject α} {k : JsStr} (h : k ∉ objKeys m) :
    delKey m k = m := by
  induction m with
  | nil => rfl
  | cons p rest ih =>
    simp only [objKeys, List.map_cons, List.mem_cons, not_or] at h
    have h1 : p.1 ≠ k := fun hc => h.1 hc.symm
    have h2 : k ∉ objKeys rest := h.2
    rw [delKey, List.filter_cons, if_pos (decide_eq_true h1)]
    have hrest := ih h2
    rw [delKey] at hrest
    rw [hrest]

theorem delKey_append {α : Type} (m₁ m₂ : JsObject α) (k : JsStr) :
    delKey (m₁ ++ m₂) k = delKey m₁ k ++ delKey m₂ k := by
  simp [delKey, List.filter_append]

theorem delKey_cons_self {α : Type} (m : JsObject α) (k : JsStr) (v : α) :
    delKey ((k, v) :: m) k = delKey m k := by
  rw [delKey, List.filter_cons]
  simp [delKey]

theorem getKey?_not_mem {α : Type} {m : JsObject α} {k : JsStr} (h : k ∉ objKeys m) :
    getKey? m k = none := by
  rw [getKey?, List.find?_eq_none.mpr, Option.map_none']
  intro p hp
  simp only [decide_eq_true_eq]
  intro he
  exact h (he ▸ List.mem_map_of_mem (·.1) hp)

theorem getKey?_append_right {α : Type} (m₁ m₂ : JsObject α) (k : JsStr)
    (h : k ∉ objKeys m₁) : getKey? (m₁ ++ m₂) k = getKey? m₂ k := by
  rw [getKey?, List.find?_append]
  have : m₁.find? (fun p => decide (p.1 = k)) = none := by
    have := getKey?_not_mem h
    rw [getKey?] at this
    exact Option.map_eq_none'.mp this
  rw [this, Option.none_or, getKey?]

theorem getKey?_cons_self {α : Type} (m : JsObject α) (k : JsStr) (v : α) :
    getKey? ((k, v) :: m) k = some v := by
  simp [getKey?, List.find?_cons]

theorem getKey?_append_left {α : Type} (m₁ m₂ : JsObject α) (k : JsStr)
    (h : k ∈ objKeys m₁) : getKey? (m₁ ++ m₂) k = getKey? m₁ k := by
  rw [getKey?, List.find?_append, getKey?]
  rcases List.mem_map.mp h with ⟨p, hp, hpk⟩
  have : m₁.find? (fun p => decide (p.1 = k)) ≠ none := by
    rw [Ne, List.find?_eq_none]
    push_neg
    exact ⟨p, hp, by simpa using hpk⟩
  rcases Option.ne_none_iff_exists'.mp this with ⟨q, hq⟩
  rw [hq]
  rfl



/-- Claim C1: the graph relocation pass rewrites exactly those `deps` entries
beginning with the old-root URI prefix, replacing each matching entry at its
original position with `file://` + new-root + `/` + suffix (the entry's text
after the prefix plus one separator character), leaving other entries
unchanged; the output `deps` is the elementwise image of the input, so it has
the same length and relative order, and no entry is inserted, removed or
reordered.  The `version_hash` field is untouched. -/
theorem graph_reloc_rewrites_deps_in_place (oldPath newPath : JsStr) (g : Graph)
    (sf : List JsStr) :
    (moveGraphFile oldPath newPath g sf).1.deps
        = g.deps.map (rewriteStr (workPathUriOf oldPath) newPath)
    ∧ (moveGraphFile oldPath newPath g sf).1.deps.length = g.deps.length
    ∧ (moveGraphFile oldPath newPath g sf).1.version_hash = g.version_hash := by
  refine ⟨?_, ?_, rfl⟩ <;> simp [moveGraphFile, depsLoop_fst]

/-! ### Claim C10 -/

/-- Claim C10: prefix matching is a plain string-prefix test with no
path-separator boundary check, and the suffix is computed by unconditionally
skipping exactly one character after the prefix: every string of the form
`workPathUri ++ c :: s` — for an arbitrary character `c`, not necessarily
`'/'` — is treated as matching and rewritten to `file://` + newRoot + `/` + s,
with `c` dropped.  In particular an entry under a sibling directory whose name
merely begins with the old root's name is rewritten. -/
theorem prefix_match_no_boundary_check (oldPath newPath s : JsStr) (c : Char) :
    (workPathUriOf oldPath).isPrefixOf (workPathUriOf oldPath ++ c :: s) = true
    ∧ rewriteStr (workPathUriOf oldPath) newPath (workPathUriOf oldPath ++ c :: s)
        = updatedOf newPath s := by
  refine ⟨isPrefixOf_append_cons _ _ _, ?_⟩
  rw [rewriteStr_matching _ (isPrefixOf_append_cons _ _ _), relOf_append_cons]

/-! ### Characterization of the map-rewriting loops

Under a collision-free relocation (pairwise distinct keys, no rewritten key
equal to an original key, distinct matching keys rewritten to distinct keys)
each loop removes a matching entry from its position and appends the re-keyed
entry at the end, leaving non-matching entries in place; the `refMapLoop`
additionally rewrites every value list elementwise.  The lemmas are stated in
a generalized form for the induction: `rest` is the part of the snapshot still
to be processed, `done` the processed prefix of the object, and `news` the
entries appended so far. -/

theorem objKeys_singleton {α : Type} (k : JsStr) (v : α) : objKeys [(k, v)] = [k] := rfl

theorem fileInfosLoop_cons_pos (u np k : JsStr) (ks : List JsStr) (m : JsObject FileInfo)
    (st : MoveState) (hm : u.isPrefixOf k = true) :
    fileInfosLoop u np (k :: ks) m st =
      fileInfosLoop u np ks
        (delKey (setKey m (updatedOf np (relOf u k)) ((getKey? m k).getD default)) k)
        { sourceFiles := st.sourceFiles.insert (relOf u k), needsWrite := true } := by
  simp only [fileInfosLoop, hm, if_true]

theorem fileInfosLoop_cons_neg (u np k : JsStr) (ks : List JsStr) (m : JsObject FileInfo)
    (st : MoveState) (hm : u.isPrefixOf k = false) :
    fileInfosLoop u np (k :: ks) m st = fileInfosLoop u np ks m st := by
  simp only [fileInfosLoop, hm]
  rfl

theorem fileInfosLoop_char (u np : JsStr) (rest : JsObject FileInfo) :
    ∀ (done news : JsObject FileInfo) (st : MoveState),
    (objKeys done).Nodup → (objKeys rest).Nodup → (objKeys news).Nodup →
    (∀ x ∈ objKeys rest, x ∉ objKeys done ∧ x ∉ objKeys news) →
    (∀ x ∈ objKeys news, x ∉ objKeys done) →
    (∀ k ∈ objKeys rest, u.isPrefixOf k = true →
        updatedOf np (relOf u k) ∉ objKeys done
      ∧ updatedOf np (relOf u k) ∉ objKeys rest
      ∧ updatedOf np (relOf u k) ∉ objKeys news) →
    (∀ k ∈ objKeys rest, ∀ k' ∈ objKeys rest,
        u.isPrefixOf k = true → u.isPrefixOf k' = true →
        updatedOf np (relOf u k) = updatedOf np (relOf u k') → k = k') →
    (fileInfosLoop u np (objKeys rest) (done ++ rest ++ news) st).1
      = done ++ rest.filter (fun p => !(u.isPrefixOf p.1)) ++ news
          ++ (rest.filter (fun p => u.isPrefixOf p.1)).map
              (fun p => (updatedOf np (relOf u p.1), p.2)) := by
  induction rest with
  | nil =>
    intro done news st _ _ _ _ _ _ _
    simp [objKeys, fileInfosLoop]
  | cons e rest' ih =>
    obtain ⟨k, v⟩ := e
    intro done news st h1a h1b h1c h1d h1e h2 h3
    have hoc : objKeys ((k, v) :: rest') = k :: objKeys rest' := rfl
    rw [hoc] at h1b h1d h2 h3 ⊢
    have hknotin : k ∉ objKeys rest' := (List.nodup_cons.mp h1b).1
    have h1b' : (objKeys rest').Nodup := (List.nodup_cons.mp h1b).2
    have hkmem : k ∈ k :: objKeys rest' := List.mem_cons_self _ _
    have hkdone : k ∉ objKeys done := (h1d k hkmem).1
    have hknews : k ∉ objKeys news := (h1d k hkmem).2
    by_cases hm : u.isPrefixOf k = true
    · -- matching key: the entry is re-keyed and appended
      have hupd := h2 k hkmem hm
      have hupdk : updatedOf np (relOf u k) ≠ k := fun he => (he ▸ hupd.2.1) hkmem
      have hupdrest : updatedOf np (relOf u k) ∉ objKeys rest' :=
        fun hc => hupd.2.1 (List.mem_cons_of_mem _ hc)
      have hget : getKey? (done ++ (k, v) :: rest' ++ news) k = some v := by
        rw [List.append_assoc, getKey?_append_right _ _ _ hkdone]
        exact getKey?_cons_self _ _ _
      have hsetdel :
          delKey (setKey (done ++ (k, v) :: rest' ++ news)
              (updatedOf np (relOf u k)) v) k
            = done ++ rest' ++ (news ++ [(updatedOf np (relOf u k), v)]) := by
        have hnot : updatedOf np (relOf u k) ∉ objKeys (done ++ (k, v) :: rest' ++ news) := by
          rw [objKeys_append, objKeys_append, objKeys_cons]
          intro hc
          rcases List.mem_append.mp hc with hc' | hcn
          · rcases List.mem_append.mp hc' with hcd | hcr
            · exact hupd.1 hcd
            · exact hupd.2.1 hcr
          · exact hupd.2.2 hcn
        rw [setKey_not_mem hnot]
        rw [delKey_append, delKey_append, delKey_append]
        rw [delKey_not_mem hkdone, delKey_not_mem hknews]
        rw [show delKey ((k, v) :: rest') k = rest' from by
          rw [delKey_cons_self, delKey_not_mem hknotin]]
        rw [delKey_not_mem (show k ∉ objKeys [(updatedOf np (relOf u k), v)] from by
          rw [objKeys_singleton, List.mem_singleton]
          exact fun hc => hupdk hc.symm)]
        simp [List.append_assoc]
      rw [fileInfosLoop_cons_pos u np k (objKeys rest') _ st hm, hget, Option.getD_some,
        hsetdel]
      have h1c' : (objKeys (news ++ [(updatedOf np (relOf u k), v)])).Nodup := by
        rw [objKeys_append, objKeys_singleton]
        refine List.Nodup.append h1c (by simp) ?_
        intro a ha hb
        rw [List.mem_singleton] at hb
        exact hupd.2.2 (hb ▸ ha)
      have h1d' : ∀ x ∈ objKeys rest',
          x ∉ objKeys done ∧ x ∉ objKeys (news ++ [(updatedOf np (relOf u k), v)]) := by
        intro x hx
        have hx' := List.mem_cons_of_mem k hx
        refine ⟨(h1d x hx').1, ?_⟩
        rw [objKeys_append, objKeys_singleton]
        intro hc
        rcases List.mem_append.mp hc with hcn | hcu
        · exact (h1d x hx').2 hcn
        · rw [List.mem_singleton] at hcu
          exact hupdrest (hcu ▸ hx)
      have h1e' : ∀ x ∈ objKeys (news ++ [(updatedOf np (relOf u k), v)]),
          x ∉ objKeys done := by
        intro x hx
        rw [objKeys_append, objKeys_singleton] at hx
        rcases List.mem_append.mp hx with hxn | hxu
        · exact h1e x hxn
        · rw [List.mem_singleton] at hxu
          exact hxu ▸ hupd.1
      have h2' : ∀ j ∈ objKeys rest', u.isPrefixOf j = true →
          updatedOf np (relOf u j) ∉ objKeys done
        ∧ updatedOf np (relOf u j) ∉ objKeys rest'
        ∧ updatedOf np (relOf u j) ∉ objKeys (news ++ [(updatedOf np (relOf u k), v)]) := by
        intro j hj hmj
        have hj' := List.mem_cons_of_mem k hj
        have hu := h2 j hj' hmj
        refine ⟨hu.1, fun hc => hu.2.1 (List.mem_cons_of_mem _ hc), ?_⟩
        rw [objKeys_append, objKeys_singleton]
        intro hc
        rcases List.mem_append.mp hc with hcn | hcu
        · exact hu.2.2 hcn
        · rw [List.mem_singleton] at hcu
          have hjk := h3 j hj' k hkmem hmj hm hcu
          exact hknotin (hjk ▸ hj)
      have h3' : ∀ j ∈ objKeys rest', ∀ j' ∈ objKeys rest',
          u.isPrefixOf j = true → u.isPrefixOf j' = true →
          updatedOf np (relOf u j) = updatedOf np (relOf u j') → j = j' := by
        intro j hj j' hj' hmj hmj' he
        exact h3 j (List.mem_cons_of_mem _ hj) j' (List.mem_cons_of_mem _ hj') hmj hmj' he
      rw [ih done (news ++ [(updatedOf np (relOf u k), v)])
        { sourceFiles := st.sourceFiles.insert (relOf u k), needsWrite := true }
        h1a h1b' h1c' h1d' h1e' h2' h3']
      simp [List.filter_cons, hm, List.append_assoc]
    · -- non-matching key: the entry stays in place
      have hm' : u.isPrefixOf k = false := by
        cases hb : u.isPrefixOf k
        · rfl
        · exact absurd hb hm
      rw [fileInfosLoop_cons_neg u np k (objKeys rest') _ st hm']
      have hre : done ++ (k, v) :: rest' ++ news = (done ++ [(k, v)]) ++ rest' ++ news := by
        simp
      rw [hre]
      have h1a' : (objKeys (done ++ [(k, v)])).Nodup := by
        rw [objKeys_append, objKeys_singleton]
        refine List.Nodup.append h1a (by simp) ?_
        intro a ha hb
        rw [List.mem_singleton] at hb
        exact hkdone (hb ▸ ha)
      have h1d' : ∀ x ∈ objKeys rest',
          x ∉ objKeys (done ++ [(k, v)]) ∧ x ∉ objKeys news := by
        intro x hx
        have hx' := List.mem_cons_of_mem k hx
        refine ⟨?_, (h1d x hx').2⟩
        rw [objKeys_append, objKeys_singleton]
        intro hc
        rcases List.mem_append.mp hc with hcd | hck
        · exact (h1d x hx').1 hcd
        · rw [List.mem_singleton] at hck
          exact hknotin (hck ▸ hx)
      have h1e' : ∀ x ∈ objKeys news, x ∉ objKeys (done ++ [(k, v)]) := by
        intro x hx
        rw [objKeys_append, objKeys_singleton]
        intro hc
        rcases List.mem_append.mp hc with hcd | hck
        · exact h1e x hx hcd
        · rw [List.mem_singleton] at hck
          exact hknews (hck ▸ hx)
      have h2' : ∀ j ∈ objKeys rest', u.isPrefixOf j = true →
          updatedOf np (relOf u j) ∉ objKeys (done ++ [(k, v)])
        ∧ updatedOf np (relOf u j) ∉ objKeys rest'
        ∧ updatedOf np (relOf u j) ∉ objKeys news := by
        intro j hj hmj
        have hj' := List.mem_cons_of_mem k hj
        have hu := h2 j hj' hmj
        refine ⟨?_, fun hc => hu.2.1 (List.mem_cons_of_mem _ hc), hu.2.2⟩
        rw [objKeys_append, objKeys_singleton]
        intro hc
        rcases List.mem_append.mp hc with hcd | hck
        · exact hu.1 hcd
        · rw [List.mem_singleton] at hck
          exact hu.2.1 (hck ▸ List.mem_cons_self _ _)
      have h3' : ∀ j ∈ objKeys rest', ∀ j' ∈ objKeys rest',
          u.isPrefixOf j = true → u.isPrefixOf j' = true →
          updatedOf np (relOf u j) = updatedOf np (relOf u j') → j = j' := by
        intro j hj j' hj' hmj hmj' he
        exact h3 j (List.mem_cons_of_mem _ hj) j' (List.mem_cons_of_mem _ hj') hmj hmj' he
      rw [ih (done ++ [(k, v)]) news st h1a' h1b' h1c h1d' h1e' h2' h3']
      simp [List.filter_cons, hm', List.append_assoc]

theorem refMapLoop_cons_pos (u np k : JsStr) (refs : List JsStr)
    (es : List (JsStr × List JsStr)) (m : JsObject (List JsStr)) (st : MoveState)
    (hm : u.isPrefixOf k = true) :
    refMapLoop u np ((k, refs) :: es) m st =
      refMapLoop u np es
        (delKey (setKey m (updatedOf np (relOf u k)) (depsLoop u np refs st).1) k)
        { sourceFiles := (depsLoop u np refs st).2.sourceFiles.insert (relOf u k),
          needsWrite := true } := by
  simp only [refMapLoop, hm, if_true]

theorem refMapLoop_cons_neg (u np k : JsStr) (refs : List JsStr)
    (es : List (JsStr × List JsStr)) (m : JsObject (List JsStr)) (st : MoveState)
    (hm : u.isPrefixOf k = false) :
    refMapLoop u np ((k, refs) :: es) m st =
      refMapLoop u np es (setKey m k (depsLoop u np refs st).1) (depsLoop u np refs st).2 := by
  simp only [refMapLoop, hm]
  rfl

theorem refMapLoop_char (u np : JsStr) (rest : JsObject (List JsStr)) :
    ∀ (done news : JsObject (List JsStr)) (st : MoveState),
    (objKeys done).Nodup → (objKeys rest).Nodup → (objKeys news).Nodup →
    (∀ x ∈ objKeys rest, x ∉ objKeys done ∧ x ∉ objKeys news) →
    (∀ x ∈ objKeys news, x ∉ objKeys done) →
    (∀ k ∈ objKeys rest, u.isPrefixOf k = true →
        updatedOf np (relOf u k) ∉ objKeys done
      ∧ updatedOf np (relOf u k) ∉ objKeys rest
      ∧ updatedOf np (relOf u k) ∉ objKeys news) →
    (∀ k ∈ objKeys rest, ∀ k' ∈ objKeys rest,
        u.isPrefixOf k = true → u.isPrefixOf k' = true →
        updatedOf np (relOf u k) = updatedOf np (relOf u k') → k = k') →
    (refMapLoop u np rest (done ++ rest ++ news) st).1
      = done
        ++ (rest.filter (fun p => !(u.isPrefixOf p.1))).map
             (fun p => (p.1, p.2.map (rewriteStr u np)))
        ++ news
        ++ (rest.filter (fun p => u.isPrefixOf p.1)).map
             (fun p => (updatedOf np (relOf u p.1), p.2.map (rewriteStr u np))) := by
  induction rest with
  | nil =>
    intro done news st _ _ _ _ _ _ _
    simp [refMapLoop]
  | cons e rest' ih =>
    obtain ⟨k, refs⟩ := e
    intro done news st h1a h1b h1c h1d h1e h2 h3
    have hoc : objKeys ((k, refs) :: rest') = k :: objKeys rest' := rfl
    rw [hoc] at h1b h1d h2 h3
    have hknotin : k ∉ objKeys rest' := (List.nodup_cons.mp h1b).1
    have h1b' : (objKeys rest').Nodup := (List.nodup_cons.mp h1b).2
    have hkmem : k ∈ k :: objKeys rest' := List.mem_cons_self _ _
    have hkdone : k ∉ objKeys done := (h1d k hkmem).1
    have hknews : k ∉ objKeys news := (h1d k hkmem).2
    by_cases hm : u.isPrefixOf k = true
    · -- matching key: value list rewritten in place, then the entry re-keyed
      have hupd := h2 k hkmem hm
      have hupdk : updatedOf np (relOf u k) ≠ k := fun he => (he ▸ hupd.2.1) hkmem
      have hupdrest : updatedOf np (relOf u k) ∉ objKeys rest' :=
        fun hc => hupd.2.1 (List.mem_cons_of_mem _ hc)
      have hsetdel :
          delKey (setKey (done ++ (k, refs) :: rest' ++ news)
              (updatedOf np (relOf u k)) (refs.map (rewriteStr u np))) k
            = done ++ rest' ++ (news ++ [(updatedOf np (relOf u k), refs.map (rewriteStr u np))]) := by
        have hnot : updatedOf np (relOf u k) ∉ objKeys (done ++ (k, refs) :: rest' ++ news) := by
          rw [objKeys_append, objKeys_append, hoc]
          intro hc
          rcases List.mem_append.mp hc with hc' | hcn
          · rcases List.mem_append.mp hc' with hcd | hcr
            · exact hupd.1 hcd
            · exact hupd.2.1 hcr
          · exact hupd.2.2 hcn
        rw [setKey_not_mem hnot]
        rw [delKey_append, delKey_append, delKey_append]
        rw [delKey_not_mem hkdone, delKey_not_mem hknews]
        rw [show delKey ((k, refs) :: rest') k = rest' from by
          rw [delKey_cons_self, delKey_not_mem hknotin]]
        rw [delKey_not_mem (show k ∉ objKeys [(updatedOf np (relOf u k), refs.map (rewriteStr u np))] from by
          rw [objKeys_singleton, List.mem_singleton]
          exact fun hc => hupdk hc.symm)]
        simp [List.append_assoc]
      rw [refMapLoop_cons_pos u np k refs rest' _ st hm, depsLoop_fst, hsetdel]
      have h1c' : (objKeys (news ++ [(updatedOf np (relOf u k), refs.map (rewriteStr u np))])).Nodup := by
        rw [objKeys_append, objKeys_singleton]
        refine List.Nodup.append h1c (by simp) ?_
        intro a ha hb
        rw [List.mem_singleton] at hb
        exact hupd.2.2 (hb ▸ ha)
      have h1d' : ∀ x ∈ objKeys rest',
          x ∉ objKeys done
          ∧ x ∉ objKeys (news ++ [(updatedOf np (relOf u k), refs.map (rewriteStr u np))]) := by
        intro x hx
        have hx' := List.mem_cons_of_mem k hx
        refine ⟨(h1d x hx').1, ?_⟩
        rw [objKeys_append, objKeys_singleton]
        intro hc
        rcases List.mem_append.mp hc with hcn | hcu
        · exact (h1d x hx').2 hcn
        · rw [List.mem_singleton] at hcu
          exact hupdrest (hcu ▸ hx)
      have h1e' : ∀ x ∈ objKeys (news ++ [(updatedOf np (relOf u k), refs.map (rewriteStr u np))]),
          x ∉ objKeys done := by
        intro x hx
        rw [objKeys_append, objKeys_singleton] at hx
        rcases List.mem_append.mp hx with hxn | hxu
        · exact h1e x hxn
        · rw [List.mem_singleton] at hxu
          exact hxu ▸ hupd.1
      have h2' : ∀ j ∈ objKeys rest', u.isPrefixOf j = true →
          updatedOf np (relOf u j) ∉ objKeys done
        ∧ updatedOf np (relOf u j) ∉ objKeys rest'
        ∧ updatedOf np (relOf u j)
            ∉ objKeys (news ++ [(updatedOf np (relOf u k), refs.map (rewriteStr u np))]) := by
        intro j hj hmj
        have hj' := List.mem_cons_of_mem k hj
        have hu := h2 j hj' hmj
        refine ⟨hu.1, fun hc => hu.2.1 (List.mem_cons_of_mem _ hc), ?_⟩
        rw [objKeys_append, objKeys_singleton]
        intro hc
        rcases List.mem_append.mp hc with hcn | hcu
        · exact hu.2.2 hcn
        · rw [List.mem_singleton] at hcu
          have hjk := h3 j hj' k hkmem hmj hm hcu
          exact hknotin (hjk ▸ hj)
      have h3' : ∀ j ∈ objKeys rest', ∀ j' ∈ objKeys rest',
          u.isPrefixOf j = true → u.isPrefixOf j' = true →
          updatedOf np (relOf u j) = updatedOf np (relOf u j') → j = j' := by
        intro j hj j' hj' hmj hmj' he
        exact h3 j (List.mem_cons_of_mem _ hj) j' (List.mem_cons_of_mem _ hj') hmj hmj' he
      rw [ih done (news ++ [(updatedOf np (relOf u k), refs.map (rewriteStr u np))])
        { sourceFiles := (depsLoop u np refs st).2.sourceFiles.insert (relOf u k),
          needsWrite := true }
        h1a h1b' h1c' h1d' h1e' h2' h3']
      simp [List.filter_cons, hm, List.append_assoc]
    · -- non-matching key: only the value list is rewritten, in place
      have hm' : u.isPrefixOf k = false := by
        cases hb : u.isPrefixOf k
        · rfl
        · exact absurd hb hm
      rw [refMapLoop_cons_neg u np k refs rest' _ st hm', depsLoop_fst]
      rw [show setKey (done ++ (k, refs) :: rest' ++ news) k (refs.map (rewriteStr u np))
            = (done ++ [(k, refs.map (rewriteStr u np))]) ++ rest' ++ news from by
        rw [setKey_mid done rest' news k refs _ hkdone hknotin hknews]
        simp]
      have h1a' : (objKeys (done ++ [(k, refs.map (rewriteStr u np))])).Nodup := by
        rw [objKeys_append, objKeys_singleton]
        refine List.Nodup.append h1a (by simp) ?_
        intro a ha hb
        rw [List.mem_singleton] at hb
        exact hkdone (hb ▸ ha)
      have h1d' : ∀ x ∈ objKeys rest',
          x ∉ objKeys (done ++ [(k, refs.map (rewriteStr u np))]) ∧ x ∉ objKeys news := by
        intro x hx
        have hx' := List.mem_cons_of_mem k hx
        refine ⟨?_, (h1d x hx').2⟩
        rw [objKeys_append, objKeys_singleton]
        intro hc
        rcases List.mem_append.mp hc with hcd | hck
        · exact (h1d x hx').1 hcd
        · rw [List.mem_singleton] at hck
          exact hknotin (hck ▸ hx)
      have h1e' : ∀ x ∈ objKeys news, x ∉ objKeys (done ++ [(k, refs.map (rewriteStr u np))]) := by
        intro x hx
        rw [objKeys_append, objKeys_singleton]
        intro hc
        rcases List.mem_append.mp hc with hcd | hck
        · exact h1e x hx hcd
        · rw [List.mem_singleton] at hck
          exact hknews (hck ▸ hx)
      have h2' : ∀ j ∈ objKeys rest', u.isPrefixOf j = true →
          updatedOf np (relOf u j) ∉ objKeys (done ++ [(k, refs.map (rewriteStr u np))])
        ∧ updatedOf np (relOf u j) ∉ objKeys rest'
        ∧ updatedOf np (relOf u j) ∉ objKeys news := by
        intro j hj hmj
        have hj' := List.mem_cons_of_mem k hj
        have hu := h2 j hj' hmj
        refine ⟨?_, fun hc => hu.2.1 (List.mem_cons_of_mem _ hc), hu.2.2⟩
        rw [objKeys_append, objKeys_singleton]
        intro hc
        rcases List.mem_append.mp hc with hcd | hck
        · exact hu.1 hcd
        · rw [List.mem_singleton] at hck
          exact hu.2.1 (hck ▸ List.mem_cons_self _ _)
      have h3' : ∀ j ∈ objKeys rest', ∀ j' ∈ objKeys rest',
          u.isPrefixOf j = true → u.isPrefixOf j' = true →
          updatedOf np (relOf u j) = updatedOf np (relOf u j') → j = j' := by
        intro j hj j' hj' hmj hmj' he
        exact h3 j (List.mem_cons_of_mem _ hj) j' (List.mem_cons_of_mem _ hj') hmj hmj' he
      rw [ih (done ++ [(k, refs.map (rewriteStr u np))]) news (depsLoop u np refs st).2
        h1a' h1b' h1c h1d' h1e' h2' h3']
      simp [List.filter_cons, hm', List.append_assoc]

theorem fileInfosLoop_needsWrite (u np : JsStr) (ks : List JsStr) (m : JsObject FileInfo)
    (st : MoveState) :
    (fileInfosLoop u np ks m st).2.needsWrite
      = (st.needsWrite || ks.any (fun s => u.isPrefixOf s)) := by
  induction ks generalizing m st with
  | nil => simp [fileInfosLoop]
  | cons k ks ih =>
    by_cases hm : u.isPrefixOf k = true
    · simp [fileInfosLoop, hm, ih]
    · simp [fileInfosLoop, hm, ih]

theorem fileInfosLoop_sf_mono (u np : JsStr) (ks : List JsStr) (m : JsObject FileInfo)
    (st : MoveState) {x : JsStr} (hx : x ∈ st.sourceFiles) :
    x ∈ (fileInfosLoop u np ks m st).2.sourceFiles := by
  induction ks generalizing m st with
  | nil => exact hx
  | cons k ks ih =>
    by_cases hm : u.isPrefixOf k = true
    · simp only [fileInfosLoop, hm, if_true]
      exact ih _ _ (List.mem_insert_of_mem hx)
    · simp only [fileInfosLoop, hm, if_false, Bool.false_eq_true]
      exact ih _ _ hx

theorem fileInfosLoop_sf_nodup (u np : JsStr) (ks : List JsStr) (m : JsObject FileInfo)
    (st : MoveState) (h : st.sourceFiles.Nodup) :
    (fileInfosLoop u np ks m st).2.sourceFiles.Nodup := by
  induction ks generalizing m st with
  | nil => exact h
  | cons k ks ih =>
    by_cases hm : u.isPrefixOf k = true
    · simp only [fileInfosLoop, hm, if_true]
      exact ih _ _ (insert_nodup _ h)
    · simp only [fileInfosLoop, hm, if_false, Bool.false_eq_true]
      exact ih _ _ h

theorem fileInfosLoop_discovers (u np : JsStr) (ks : List JsStr) (m : JsObject FileInfo)
    (st : MoveState) {k : JsStr} (hk : k ∈ ks) (hm : u.isPrefixOf k = true) :
    relOf u k ∈ (fileInfosLoop u np ks m st).2.sourceFiles := by
  induction ks generalizing m st with
  | nil => cases hk
  | cons k' ks ih =>
    rcases List.mem_cons.mp hk with rfl | hk'
    · simp only [fileInfosLoop, hm, if_true]
      exact fileInfosLoop_sf_mono _ _ _ _ _ (List.mem_insert_self _ _)
    · by_cases hm' : u.isPrefixOf k' = true
      · simp only [fileInfosLoop, hm', if_true]
        exact ih _ _ hk'
      · simp only [fileInfosLoop, hm', if_false, Bool.false_eq_true]
        exact ih _ _ hk'

theorem fileInfosLoop_nomatch (u np : JsStr) (ks : List JsStr) (m : JsObject FileInfo)
    (st : MoveState) (h : ks.any (fun s => u.isPrefixOf s) = false) :
    fileInfosLoop u np ks m st = (m, st) := by
  induction ks generalizing m st with
  | nil => rfl
  | cons k ks ih =>
    simp only [List.any_cons, Bool.or_eq_false_iff] at h
    simp [fileInfosLoop, h.1, ih _ _ h.2]

theorem refMapLoop_needsWrite (u np : JsStr) (es : List (JsStr × List JsStr))
    (m : JsObject (List JsStr)) (st : MoveState) :
    (refMapLoop u np es m st).2.needsWrite
      = (st.needsWrite
          || es.any (fun p => p.2.any (fun s => u.isPrefixOf s) || u.isPrefixOf p.1)) := by
  induction es generalizing m st with
  | nil => simp [refMapLoop]
  | cons e es ih =>
    obtain ⟨k, refs⟩ := e
    by_cases hm : u.isPrefixOf k = true
    · rw [refMapLoop_cons_pos u np k refs es m st hm, ih]
      simp [hm, Bool.or_assoc]
    · have hm' : u.isPrefixOf k = false := by
        cases hb : u.isPrefixOf k
        · rfl
        · exact absurd hb hm
      rw [refMapLoop_cons_neg u np k refs es m st hm', ih]
      simp [hm', depsLoop_needsWrite, Bool.or_assoc]

theorem refMapLoop_sf_mono (u np : JsStr) (es : List (JsStr × List JsStr))
    (m : JsObject (List JsStr)) (st : MoveState) {x : JsStr} (hx : x ∈ st.sourceFiles) :
    x ∈ (refMapLoop u np es m st).2.sourceFiles := by
  induction es generalizing m st with
  | nil => exact hx
  | cons e es ih =>
    obtain ⟨k, refs⟩ := e
    have hx₁ : x ∈ (depsLoop u np refs st).2.sourceFiles := depsLoop_sf_mono _ _ _ _ hx
    by_cases hm : u.isPrefixOf k = true
    · rw [refMapLoop_cons_pos u np k refs es m st hm]
      exact ih _ _ (List.mem_insert_of_mem hx₁)
    · have hm' : u.isPrefixOf k = false := by
        cases hb : u.isPrefixOf k
        · rfl
        · exact absurd hb hm
      rw [refMapLoop_cons_neg u np k refs es m st hm']
      exact ih _ _ hx₁

theorem refMapLoop_sf_nodup (u np : JsStr) (es : List (JsStr × List JsStr))
    (m : JsObject (List JsStr)) (st : MoveState) (h : st.sourceFiles.Nodup) :
    (refMapLoop u np es m st).2.sourceFiles.Nodup := by
  induction es generalizing m st with
  | nil => exact h
  | cons e es ih =>
    obtain ⟨k, refs⟩ := e
    have h₁ : (depsLoop u np refs st).2.sourceFiles.Nodup := depsLoop_sf_nodup _ _ _ _ h
    by_cases hm : u.isPrefixOf k = true
    · rw [refMapLoop_cons_pos u np k refs es m st hm]
      exact ih _ _ (insert_nodup _ h₁)
    · have hm' : u.isPrefixOf k = false := by
        cases hb : u.isPrefixOf k
        · rfl
        · exact absurd hb hm
      rw [refMapLoop_cons_neg u np k refs es m st hm']
      exact ih _ _ h₁

theorem refMapLoop_discovers_key (u np : JsStr) (es : List (JsStr × List JsStr))
    (m : JsObject (List JsStr)) (st : MoveState) {k : JsStr} {refs : List JsStr}
    (he : (k, refs) ∈ es) (hm : u.isPrefixOf k = true) :
    relOf u k ∈ (refMapLoop u np es m st).2.sourceFiles := by
  induction es generalizing m st with
  | nil => cases he
  | cons e es ih =>
    rcases List.mem_cons.mp he with rfl | he'
    · rw [refMapLoop_cons_pos u np k refs es m st hm]
      exact refMapLoop_sf_mono _ _ _ _ _ (List.mem_insert_self _ _)
    · obtain ⟨k', refs'⟩ := e
      by_cases hm' : u.isPrefixOf k' = true
      · rw [refMapLoop_cons_pos u np k' refs' es m st hm']
        exact ih _ _ he'
      · have hm'' : u.isPrefixOf k' = false := by
          cases hb : u.isPrefixOf k'
          · rfl
          · exact absurd hb hm'
        rw [refMapLoop_cons_neg u np k' refs' es m st hm'']
        exact ih _ _ he'

theorem refMapLoop_discovers_val (u np : JsStr) (es : List (JsStr × List JsStr))
    (m : JsObject (List JsStr)) (st : MoveState) {k s : JsStr} {refs : List JsStr}
    (he : (k, refs) ∈ es) (hs : s ∈ refs) (hm : u.isPrefixOf s = true) :
    relOf u s ∈ (refMapLoop u np es m st).2.sourceFiles := by
  induction es generalizing m st with
  | nil => cases he
  | cons e es ih =>
    rcases List.mem_cons.mp he with rfl | he'
    · have h₁ : relOf u s ∈ (depsLoop u np refs st).2.sourceFiles :=
        depsLoop_discovers _ _ _ _ hs hm
      by_cases hmk : u.isPrefixOf k = true
      · rw [refMapLoop_cons_pos u np k refs es m st hmk]
        exact refMapLoop_sf_mono _ _ _ _ _ (List.mem_insert_of_mem h₁)
      · have hmk' : u.isPrefixOf k = false := by
          cases hb : u.isPrefixOf k
          · rfl
          · exact absurd hb hmk
        rw [refMapLoop_cons_neg u np k refs es m st hmk']
        exact refMapLoop_sf_mono _ _ _ _ _ h₁
    · obtain ⟨k', refs'⟩ := e
      by_cases hm' : u.isPrefixOf k' = true
      · rw [refMapLoop_cons_pos u np k' refs' es m st hm']
        exact ih _ _ he'
      · have hm'' : u.isPrefixOf k' = false := by
          cases hb : u.isPrefixOf k'
          · rfl
          · exact absurd hb hm'
        rw [refMapLoop_cons_neg u np k' refs' es m st hm'']
        exact ih _ _ he'

theorem refMapLoop_state_nomatch (u np : JsStr) (es : List (JsStr × List JsStr))
    (m : JsObject (List JsStr)) (st : MoveState)
    (h : es.any (fun p => p.2.any (fun s => u.isPrefixOf s) || u.isPrefixOf p.1) = false) :
    (refMapLoop u np es m st).2 = st := by
  induction es generalizing m st with
  | nil => rfl
  | cons e es ih =>
    obtain ⟨k, refs⟩ := e
    simp only [List.any_cons, Bool.or_eq_false_iff] at h
    rw [refMapLoop_cons_neg u np k refs es m st h.1.2]
    rw [ih _ _ h.2]
    rw [depsLoop_nomatch u np refs st h.1.1]

theorem bool_eq_false {b : Bool} (h : ¬ b = true) : b = false := by
  cases b
  · rfl
  · exact absurd rfl h

theorem mapRw_nomatch (u np : JsStr) (l : List JsStr)
    (h : l.any (fun s => u.isPrefixOf s) = false) : l.map (rewriteStr u np) = l := by
  conv_rhs => rw [← List.map_id l]
  apply List.map_congr_left
  intro s hs
  exact rewriteStr_not_matching np (bool_eq_false (List.any_eq_false.mp h s hs))

theorem fileInfosLoop_top (u np : JsStr) (m : JsObject FileInfo) (st : MoveState)
    (h1 : (objKeys m).Nodup)
    (h2 : ∀ k ∈ objKeys m, u.isPrefixOf k = true → updatedOf np (relOf u k) ∉ objKeys m)
    (h3 : ∀ k ∈ objKeys m, ∀ k' ∈ objKeys m,
        u.isPrefixOf k = true → u.isPrefixOf k' = true →
        updatedOf np (relOf u k) = updatedOf np (relOf u k') → k = k') :
    (fileInfosLoop u np (objKeys m) m st).1
      = m.filter (fun p => !(u.isPrefixOf p.1))
        ++ (m.filter (fun p => u.isPrefixOf p.1)).map
            (fun p => (updatedOf np (relOf u p.1), p.2)) := by
  have := fileInfosLoop_char u np m [] [] st (by simp [objKeys]) h1 (by simp [objKeys])
    (fun x hx => ⟨by simp [objKeys], by simp [objKeys]⟩)
    (fun x hx => absurd hx (by simp [objKeys]))
    (fun k hk hm => ⟨by simp [objKeys], (h2 k hk hm), by simp [objKeys]⟩)
    h3
  simpa using this

theorem refMapLoop_top (u np : JsStr) (m : JsObject (List JsStr)) (st : MoveState)
    (h1 : (objKeys m).Nodup)
    (h2 : ∀ k ∈ objKeys m, u.isPrefixOf k = true → updatedOf np (relOf u k) ∉ objKeys m)
    (h3 : ∀ k ∈ objKeys m, ∀ k' ∈ objKeys m,
        u.isPrefixOf k = true → u.isPrefixOf k' = true →
        updatedOf np (relOf u k) = updatedOf np (relOf u k') → k = k') :
    (refMapLoop u np m m st).1
      = (m.filter (fun p => !(u.isPrefixOf p.1))).map
            (fun p => (p.1, p.2.map (rewriteStr u np)))
        ++ (m.filter (fun p => u.isPrefixOf p.1)).map
            (fun p => (updatedOf np (relOf u p.1), p.2.map (rewriteStr u np))) := by
  have := refMapLoop_char u np m [] [] st (by simp [objKeys]) h1 (by simp [objKeys])
    (fun x hx => ⟨by simp [objKeys], by simp [objKeys]⟩)
    (fun x hx => absurd hx (by simp [objKeys]))
    (fun k hk hm => ⟨by simp [objKeys], (h2 k hk hm), by simp [objKeys]⟩)
    h3
  simpa using this

theorem refMapLoop_map_nomatch (u np : JsStr) (m : JsObject (List JsStr)) (st : MoveState)
    (h1 : (objKeys m).Nodup)
    (h : m.any (fun p => p.2.any (fun s => u.isPrefixOf s) || u.isPrefixOf p.1) = false) :
    (refMapLoop u np m m st).1 = m := by
  have hnom : ∀ p ∈ m,
      p.2.any (fun s => u.isPrefixOf s) = false ∧ u.isPrefixOf p.1 = false := by
    intro p hp
    have hx := List.any_eq_false.mp h p hp
    rw [Bool.or_eq_true] at hx
    exact ⟨bool_eq_false (fun hc => hx (Or.inl hc)), bool_eq_false (fun hc => hx (Or.inr hc))⟩
  rw [refMapLoop_top u np m st h1
    (fun k hk hm => by
      rcases List.mem_map.mp hk with ⟨p, hp, hpk⟩
      exact absurd (hpk ▸ hm) (by simp [(hnom p hp).2]))
    (fun k hk k' hk' hm => by
      rcases List.mem_map.mp hk with ⟨p, hp, hpk⟩
      exact absurd (hpk ▸ hm) (by simp [(hnom p hp).2]))]
  have hfilt : m.filter (fun p => !(u.isPrefixOf p.1)) = m := by
    rw [List.filter_eq_self]
    intro p hp
    simp [(hnom p hp).2]
  have hfilt2 : m.filter (fun p => u.isPrefixOf p.1) = [] := by
    rw [List.filter_eq_nil_iff]
    intro p hp
    simp [(hnom p hp).2]
  rw [hfilt, hfilt2]
  simp only [List.map_nil, List.append_nil]
  conv_rhs => rw [← List.map_id m]
  apply List.map_congr_left
  intro p hp
  have hv : p.2.map (rewriteStr u np) = p.2 := mapRw_nomatch u np p.2 (hnom p hp).1
  simp [hv]

theorem moveGraphFile_deps (op npp : JsStr) (g : Graph) (sf : List JsStr) :
    (moveGraphFile op npp g sf).1.deps
      = (depsLoop (workPathUriOf op) npp g.deps ⟨sf, false⟩).1 := rfl

theorem moveGraphFile_version_hash (op npp : JsStr) (g : Graph) (sf : List JsStr) :
    (moveGraphFile op npp g sf).1.version_hash = g.version_hash := rfl

theorem moveGraphFile_snd (op npp : JsStr) (g : Graph) (sf : List JsStr) :
    (moveGraphFile op npp g sf).2
      = (depsLoop (workPathUriOf op) npp g.deps ⟨sf, false⟩).2 := rfl

theorem moveBuildInfoFile_fileInfos (op npp : JsStr) (b : BuildInfo) (sf : List JsStr) :
    (moveBuildInfoFile op npp b sf).1.program.fileInfos
      = (fileInfosLoop (workPathUriOf op) npp (objKeys b.program.fileInfos)
          b.program.fileInfos ⟨sf, false⟩).1 := rfl

theorem moveBuildInfoFile_referencedMap (op npp : JsStr) (b : BuildInfo) (sf : List JsStr) :
    (moveBuildInfoFile op npp b sf).1.program.referencedMap
      = (refMapLoop (workPathUriOf op) npp b.program.referencedMap b.program.referencedMap
          (fileInfosLoop (workPathUriOf op) npp (objKeys b.program.fileInfos)
            b.program.fileInfos ⟨sf, false⟩).2).1 := rfl

theorem moveBuildInfoFile_exportedModulesMap (op npp : JsStr) (b : BuildInfo) (sf : List JsStr) :
    (moveBuildInfoFile op npp b sf).1.program.exportedModulesMap
      = (refMapLoop (workPathUriOf op) npp b.program.exportedModulesMap
          b.program.exportedModulesMap
          (refMapLoop (workPathUriOf op) npp b.program.referencedMap b.program.referencedMap
            (fileInfosLoop (workPathUriOf op) npp (objKeys b.program.fileInfos)
              b.program.fileInfos ⟨sf, false⟩).2).2).1 := rfl

theorem moveBuildInfoFile_fileNames (op npp : JsStr) (b : BuildInfo) (sf : List JsStr) :
    (moveBuildInfoFile op npp b sf).1.program.fileNames
      = (depsLoop (workPathUriOf op) npp b.program.fileNames
          (refMapLoop (workPathUriOf op) npp b.program.exportedModulesMap
            b.program.exportedModulesMap
            (refMapLoop (workPathUriOf op) npp b.program.referencedMap b.program.referencedMap
              (fileInfosLoop (workPathUriOf op) npp (objKeys b.program.fileInfos)
                b.program.fileInfos ⟨sf, false⟩).2).2).2).1 := rfl

theorem moveBuildInfoFile_sdpf (op npp : JsStr) (b : BuildInfo) (sf : List JsStr) :
    (moveBuildInfoFile op npp b sf).1.program.semanticDiagnosticsPerFile
      = (depsLoop (workPathUriOf op) npp b.program.semanticDiagnosticsPerFile
          (depsLoop (workPathUriOf op) npp b.program.fileNames
            (refMapLoop (workPathUriOf op) npp b.program.exportedModulesMap
              b.program.exportedModulesMap
              (refMapLoop (workPathUriOf op) npp b.program.referencedMap b.program.referencedMap
                (fileInfosLoop (workPathUriOf op) npp (objKeys b.program.fileInfos)
                  b.program.fileInfos ⟨sf, false⟩).2).2).2).2).1 := rfl

theorem moveBuildInfoFile_version (op npp : JsStr) (b : BuildInfo) (sf : List JsStr) :
    (moveBuildInfoFile op npp b sf).1.version = b.version := rfl

theorem moveBuildInfoFile_snd (op npp : JsStr) (b : BuildInfo) (sf : List JsStr) :
    (moveBuildInfoFile op npp b sf).2
      = (depsLoop (workPathUriOf op) npp b.program.semanticDiagnosticsPerFile
          (depsLoop (workPathUriOf op) npp b.program.fileNames
            (refMapLoop (workPathUriOf op) npp b.program.exportedModulesMap
              b.program.exportedModulesMap
              (refMapLoop (workPathUriOf op) npp b.program.referencedMap b.program.referencedMap
                (fileInfosLoop (workPathUriOf op) npp (objKeys b.program.fileInfos)
                  b.program.fileInfos ⟨sf, false⟩).2).2).2).2).2 := rfl

theorem mem_objKeys {α : Type} {m : JsObject α} {k : JsStr} :
    k ∈ objKeys m ↔ ∃ p ∈ m, p.1 = k := by
  rw [objKeys, List.mem_map]

theorem rekey_keys_fileInfos (u np : JsStr) (m : JsObject FileInfo) (st : MoveState)
    (h1 : (objKeys m).Nodup)
    (h2 : ∀ k ∈ objKeys m, u.isPrefixOf k = true → updatedOf np (relOf u k) ∉ objKeys m)
    (h3 : ∀ k ∈ objKeys m, ∀ k' ∈ objKeys m,
        u.isPrefixOf k = true → u.isPrefixOf k' = true →
        updatedOf np (relOf u k) = updatedOf np (relOf u k') → k = k') :
    ∀ k ∈ objKeys m, u.isPrefixOf k = true →
      updatedOf np (relOf u k) ∈ objKeys (fileInfosLoop u np (objKeys m) m st).1
      ∧ k ∉ objKeys (fileInfosLoop u np (objKeys m) m st).1 := by
  rw [fileInfosLoop_top u np m st h1 h2 h3]
  intro k hk hm
  obtain ⟨p, hp, rfl⟩ := mem_objKeys.mp hk
  constructor
  · rw [objKeys_append]
    refine List.mem_append.mpr (Or.inr ?_)
    refine mem_objKeys.mpr ?_
    exact ⟨(updatedOf np (relOf u p.1), p.2),
      List.mem_map.mpr ⟨p, List.mem_filter.mpr ⟨hp, hm⟩, rfl⟩, rfl⟩
  · rw [objKeys_append]
    intro hc
    rcases List.mem_append.mp hc with hc1 | hc2
    · obtain ⟨q, hq, hqk⟩ := mem_objKeys.mp hc1
      have hq' := List.mem_filter.mp hq
      have : u.isPrefixOf q.1 = false := by
        have := hq'.2
        rw [Bool.not_eq_true'] at this
        exact this
      rw [hqk] at this
      rw [this] at hm
      cases hm
    · obtain ⟨q, hq, hqk⟩ := mem_objKeys.mp hc2
      obtain ⟨r, hr, rfl⟩ := List.mem_map.mp hq
      have hr' := List.mem_filter.mp hr
      have hupd := h2 r.1 (mem_objKeys.mpr ⟨r, hr'.1, rfl⟩) hr'.2
      have hqk' : updatedOf np (relOf u r.1) = p.1 := hqk
      exact hupd (hqk' ▸ hk)

theorem rekey_keys_refMap (u np : JsStr) (m : JsObject (List JsStr)) (st : MoveState)
    (h1 : (objKeys m).Nodup)
    (h2 : ∀ k ∈ objKeys m, u.isPrefixOf k = true → updatedOf np (relOf u k) ∉ objKeys m)
    (h3 : ∀ k ∈ objKeys m, ∀ k' ∈ objKeys m,
        u.isPrefixOf k = true → u.isPrefixOf k' = true →
        updatedOf np (relOf u k) = updatedOf np (relOf u k') → k = k') :
    ∀ k ∈ objKeys m, u.isPrefixOf k = true →
      updatedOf np (relOf u k) ∈ objKeys (refMapLoop u np m m st).1
      ∧ k ∉ objKeys (refMapLoop u np m m st).1 := by
  rw [refMapLoop_top u np m st h1 h2 h3]
  intro k hk hm
  obtain ⟨p, hp, rfl⟩ := mem_objKeys.mp hk
  constructor
  · rw [objKeys_append]
    refine List.mem_append.mpr (Or.inr ?_)
    refine mem_objKeys.mpr ?_
    exact ⟨(updatedOf np (relOf u p.1), p.2.map (rewriteStr u np)),
      List.mem_map.mpr ⟨p, List.mem_filter.mpr ⟨hp, hm⟩, rfl⟩, rfl⟩
  · rw [objKeys_append]
    intro hc
    rcases List.mem_append.mp hc with hc1 | hc2
    · obtain ⟨q, hq, hqk⟩ := mem_objKeys.mp hc1
      obtain ⟨r, hr, rfl⟩ := List.mem_map.mp hq
      have hr' := List.mem_filter.mp hr
      have : u.isPrefixOf r.1 = false := by
        have := hr'.2
        rw [Bool.not_eq_true'] at this
        exact this
      rw [show (r.1, r.2.map (rewriteStr u np)).1 = r.1 from rfl] at hqk
      rw [hqk] at this
      rw [this] at hm
      cases hm
    · obtain ⟨q, hq, hqk⟩ := mem_objKeys.mp hc2
      obtain ⟨r, hr, rfl⟩ := List.mem_map.mp hq
      have hr' := List.mem_filter.mp hr
      have hupd := h2 r.1 (mem_objKeys.mpr ⟨r, hr'.1, rfl⟩) hr'.2
      have hqk' : updatedOf np (relOf u r.1) = p.1 := hqk
      exact hupd (hqk' ▸ hk)

/-- Claim C2 is false as stated: a counterexample.  Relocating `cexBuildInfo`
from old root `/a` to new root `/a/b`, the `fileInfos` key `file:///a/x`
matches and is rewritten to the new key `file:///a/b/x`, which collides with a
pre-existing key that is itself rewritten later; after the pass the map does
not contain the rewritten new key, contradicting the claim that every
rewritten key's new URI is present post-relocation. -/
theorem buildinfo_rekey_cex :
    (workPathUriOf (str "/a")).isPrefixOf (str "file:///a/x") = true
    ∧ updatedOf (str "/a/b") (relOf (workPathUriOf (str "/a")) (str "file:///a/x"))
        = str "file:///a/b/x"
    ∧ (str "file:///a/x") ∈ objKeys cexBuildInfo.program.fileInfos
    ∧ (str "file:///a/b/x")
        ∉ objKeys (moveBuildInfoFile (str "/a") (str "/a/b") cexBuildInfo []).1.program.fileInfos := by
  decide

/-- Claim C2 (corrected): under collision-freedom — in each of the three maps
the keys are distinct, no rewritten key equals a key already present in the
same map, and distinct matching keys rewrite to distinct new keys — every key
of `fileInfos`, `referencedMap` or `exportedModulesMap` that matches the
old-root URI prefix is, after the relocation pass, present under its rewritten
new URI and absent under its old URI, so no key coexists under both.  (Without
collision-freedom the invariant fails: see the counterexample above.) -/
theorem buildinfo_rekey_no_coexistence (oldPath newPath : JsStr) (b : BuildInfo)
    (sf : List JsStr)
    (hfi1 : (objKeys b.program.fileInfos).Nodup)
    (hfi2 : ∀ k ∈ objKeys b.program.fileInfos,
        (workPathUriOf oldPath).isPrefixOf k = true →
        updatedOf newPath (relOf (workPathUriOf oldPath) k) ∉ objKeys b.program.fileInfos)
    (hfi3 : ∀ k ∈ objKeys b.program.fileInfos, ∀ k' ∈ objKeys b.program.fileInfos,
        (workPathUriOf oldPath).isPrefixOf k = true →
        (workPathUriOf oldPath).isPrefixOf k' = true →
        updatedOf newPath (relOf (workPathUriOf oldPath) k)
          = updatedOf newPath (relOf (workPathUriOf oldPath) k') → k = k')
    (hrm1 : (objKeys b.program.referencedMap).Nodup)
    (hrm2 : ∀ k ∈ objKeys b.program.referencedMap,
        (workPathUriOf oldPath).isPrefixOf k = true →
        updatedOf newPath (relOf (workPathUriOf oldPath) k) ∉ objKeys b.program.referencedMap)
    (hrm3 : ∀ k ∈ objKeys b.program.referencedMap, ∀ k' ∈ objKeys b.program.referencedMap,
        (workPathUriOf oldPath).isPrefixOf k = true →
        (workPathUriOf oldPath).isPrefixOf k' = true →
        updatedOf newPath (relOf (workPathUriOf oldPath) k)
          = updatedOf newPath (relOf (workPathUriOf oldPath) k') → k = k')
    (hem1 : (objKeys b.program.exportedModulesMap).Nodup)
    (hem2 : ∀ k ∈ objKeys b.program.exportedModulesMap,
        (workPathUriOf oldPath).isPrefixOf k = true →
        updatedOf newPath (relOf (workPathUriOf oldPath) k)
          ∉ objKeys b.program.exportedModulesMap)
    (hem3 : ∀ k ∈ objKeys b.program.exportedModulesMap,
        ∀ k' ∈ objKeys b.program.exportedModulesMap,
        (workPathUriOf oldPath).isPrefixOf k = true →
        (workPathUriOf oldPath).isPrefixOf k' = true →
        updatedOf newPath (relOf (workPathUriOf oldPath) k)
          = updatedOf newPath (relOf (workPathUriOf oldPath) k') → k = k') :
    (∀ k ∈ objKeys b.program.fileInfos, (workPathUriOf oldPath).isPrefixOf k = true →
        updatedOf newPath (relOf (workPathUriOf oldPath) k)
          ∈ objKeys (moveBuildInfoFile oldPath newPath b sf).1.program.fileInfos
        ∧ k ∉ objKeys (moveBuildInfoFile oldPath newPath b sf).1.program.fileInfos)
    ∧ (∀ k ∈ objKeys b.program.referencedMap, (workPathUriOf oldPath).isPrefixOf k = true →
        updatedOf newPath (relOf (workPathUriOf oldPath) k)
          ∈ objKeys (moveBuildInfoFile oldPath newPath b sf).1.program.referencedMap
        ∧ k ∉ objKeys (moveBuildInfoFile oldPath newPath b sf).1.program.referencedMap)
    ∧ (∀ k ∈ objKeys b.program.exportedModulesMap,
        (workPathUriOf oldPath).isPrefixOf k = true →
        updatedOf newPath (relOf (workPathUriOf oldPath) k)
          ∈ objKeys (moveBuildInfoFile oldPath newPath b sf).1.program.exportedModulesMap
        ∧ k ∉ objKeys (moveBuildInfoFile oldPath newPath b sf).1.program.exportedModulesMap) := by
  refine ⟨?_, ?_, ?_⟩
  · rw [moveBuildInfoFile_fileInfos]
    exact rekey_keys_fileInfos _ _ _ _ hfi1 hfi2 hfi3
  · rw [moveBuildInfoFile_referencedMap]
    exact rekey_keys_refMap _ _ _ _ hrm1 hrm2 hrm3
  · rw [moveBuildInfoFile_exportedModulesMap]
    exact rekey_keys_refMap _ _ _ _ hem1 hem2 hem3

theorem buildinfo_rekey_no_coexistence_witness :
    ((objKeys okBuildInfo.program.fileInfos).Nodup
      ∧ (str "file:///a/x.ts") ∈ objKeys okBuildInfo.program.fileInfos
      ∧ (workPathUriOf (str "/a")).isPrefixOf (str "file:///a/x.ts") = true)
    ∧ (str "file:///n/x.ts")
        ∈ objKeys (moveBuildInfoFile (str "/a") (str "/n") okBuildInfo []).1.program.fileInfos
    ∧ (str "file:///a/x.ts")
        ∉ objKeys (moveBuildInfoFile (str "/a") (str "/n") okBuildInfo []).1.program.fileInfos := by
  refine ⟨by decide, ?_⟩
  have h := (buildinfo_rekey_no_coexistence (str "/a") (str "/n") okBuildInfo []
    (by decide) (by decide) (by decide) (by decide) (by decide) (by decide)
    (by decide) (by decide) (by decide)).1 (str "file:///a/x.ts") (by decide) (by decide)
  have he : updatedOf (str "/n") (relOf (workPathUriOf (str "/a")) (str "file:///a/x.ts"))
      = str "file:///n/x.ts" := by decide
  rw [he] at h
  exact h

/-- Claim C3: for every entry of `referencedMap` and `exportedModulesMap` the
relocation pass first rewrites each matching string of the entry's ordered
value list in place — the resulting list is the elementwise `rewriteStr` image
of the original, so it keeps its length and relative order — and then,
independently, re-keys the entry when the key itself matches, carrying exactly
that rewritten list to the new key; both transformations can apply to the same
entry.  The flat lists `fileNames` and `semanticDiagnosticsPerFile` are also
elementwise images, so relocation never inserts, removes or reorders list
elements anywhere. -/
theorem refmaps_rewrite_lists_then_keys (oldPath newPath : JsStr) (b : BuildInfo)
    (sf : List JsStr)
    (hrm1 : (objKeys b.program.referencedMap).Nodup)
    (hrm2 : ∀ k ∈ objKeys b.program.referencedMap,
        (workPathUriOf oldPath).isPrefixOf k = true →
        updatedOf newPath (relOf (workPathUriOf oldPath) k) ∉ objKeys b.program.referencedMap)
    (hrm3 : ∀ k ∈ objKeys b.program.referencedMap, ∀ k' ∈ objKeys b.program.referencedMap,
        (workPathUriOf oldPath).isPrefixOf k = true →
        (workPathUriOf oldPath).isPrefixOf k' = true →
        updatedOf newPath (relOf (workPathUriOf oldPath) k)
          = updatedOf newPath (relOf (workPathUriOf oldPath) k') → k = k')
    (hem1 : (objKeys b.program.exportedModulesMap).Nodup)
    (hem2 : ∀ k ∈ objKeys b.program.exportedModulesMap,
        (workPathUriOf oldPath).isPrefixOf k = true →
        updatedOf newPath (relOf (workPathUriOf oldPath) k)
          ∉ objKeys b.program.exportedModulesMap)
    (hem3 : ∀ k ∈ objKeys b.program.exportedModulesMap,
        ∀ k' ∈ objKeys b.program.exportedModulesMap,
        (workPathUriOf oldPath).isPrefixOf k = true →
        (workPathUriOf oldPath).isPrefixOf k' = true →
        updatedOf newPath (relOf (workPathUriOf oldPath) k)
          = updatedOf newPath (relOf (workPathUriOf oldPath) k') → k = k') :
    (moveBuildInfoFile oldPath newPath b sf).1.program.referencedMap
      = (b.program.referencedMap.filter
            (fun p => !((workPathUriOf oldPath).isPrefixOf p.1))).map
          (fun p => (p.1, p.2.map (rewriteStr (workPathUriOf oldPath) newPath)))
        ++ (b.program.referencedMap.filter
            (fun p => (workPathUriOf oldPath).isPrefixOf p.1)).map
          (fun p => (updatedOf newPath (relOf (workPathUriOf oldPath) p.1),
            p.2.map (rewriteStr (workPathUriOf oldPath) newPath)))
    ∧ (moveBuildInfoFile oldPath newPath b sf).1.program.exportedModulesMap
      = (b.program.exportedModulesMap.filter
            (fun p => !((workPathUriOf oldPath).isPrefixOf p.1))).map
          (fun p => (p.1, p.2.map (rewriteStr (workPathUriOf oldPath) newPath)))
        ++ (b.program.exportedModulesMap.filter
            (fun p => (workPathUriOf oldPath).isPrefixOf p.1)).map
          (fun p => (updatedOf newPath (relOf (workPathUriOf oldPath) p.1),
            p.2.map (rewriteStr (workPathUriOf oldPath) newPath)))
    ∧ (moveBuildInfoFile oldPath newPath b sf).1.program.fileNames
        = b.program.fileNames.map (rewriteStr (workPathUriOf oldPath) newPath)
    ∧ (moveBuildInfoFile oldPath newPath b sf).1.program.semanticDiagnosticsPerFile
        = b.program.semanticDiagnosticsPerFile.map (rewriteStr (workPathUriOf oldPath) newPath)
    ∧ (moveBuildInfoFile oldPath newPath b sf).1.program.fileNames.length
        = b.program.fileNames.length
    ∧ (moveBuildInfoFile oldPath newPath b sf).1.program.semanticDiagnosticsPerFile.length
        = b.program.semanticDiagnosticsPerFile.length := by
  refine ⟨?_, ?_, ?_, ?_, ?_, ?_⟩
  · rw [moveBuildInfoFile_referencedMap]
    exact refMapLoop_top _ _ _ _ hrm1 hrm2 hrm3
  · rw [moveBuildInfoFile_exportedModulesMap]
    exact refMapLoop_top _ _ _ _ hem1 hem2 hem3
  · rw [moveBuildInfoFile_fileNames, depsLoop_fst]
  · rw [moveBuildInfoFile_sdpf, depsLoop_fst]
  · rw [moveBuildInfoFile_fileNames, depsLoop_fst, List.length_map]
  · rw [moveBuildInfoFile_sdpf, depsLoop_fst, List.length_map]

theorem refmaps_rewrite_lists_then_keys_witness :
    ((objKeys okBuildInfo.program.referencedMap).Nodup
      ∧ (objKeys okBuildInfo.program.exportedModulesMap).Nodup)
    ∧ (moveBuildInfoFile (str "/a") (str "/n") okBuildInfo []).1.program.referencedMap
        = [(str "file:///n/k.ts", [str "file:///n/v.ts", str "https://deno.land/x"])]
    ∧ (moveBuildInfoFile (str "/a") (str "/n") okBuildInfo []).1.program.exportedModulesMap
        = [(str "https://deno.land/y", [str "file:///n/w.ts"])] := by
  refine ⟨by decide, ?_, ?_⟩
  · rw [(refmaps_rewrite_lists_then_keys (str "/a") (str "/n") okBuildInfo []
      (by decide) (by decide) (by decide) (by decide) (by decide) (by decide)).1]
    decide
  · rw [(refmaps_rewrite_lists_then_keys (str "/a") (str "/n") okBuildInfo []
      (by decide) (by decide) (by decide) (by decide) (by decide) (by decide)).2.1]
    decide

/-- Claim C4: on a graph or build-info document containing no string that
matches the old-root URI prefix anywhere, the relocation pass is a no-op — the
document is returned unchanged and the `needsWrite` flag stays `false` — and
conversely `needsWrite` comes out `true` exactly when some string in the
document matches, i.e. when at least one rewrite occurred, which is when the
caller writes the file back. -/
theorem reloc_noop_when_no_match (oldPath newPath : JsStr) (g : Graph) (b : BuildInfo)
    (sf sf' : List JsStr)
    (hfi1 : (objKeys b.program.fileInfos).Nodup)
    (hrm1 : (objKeys b.program.referencedMap).Nodup)
    (hem1 : (objKeys b.program.exportedModulesMap).Nodup) :
    (graphMatches (workPathUriOf oldPath) g = false →
        moveGraphFile oldPath newPath g sf = (g, ⟨sf, false⟩))
    ∧ (moveGraphFile oldPath newPath g sf).2.needsWrite
        = graphMatches (workPathUriOf oldPath) g
    ∧ (buildInfoMatches (workPathUriOf oldPath) b = false →
        moveBuildInfoFile oldPath newPath b sf' = (b, ⟨sf', false⟩))
    ∧ (moveBuildInfoFile oldPath newPath b sf').2.needsWrite
        = buildInfoMatches (workPathUriOf oldPath) b := by
  refine ⟨?_, ?_, ?_, ?_⟩
  · intro h
    rw [graphMatches] at h
    have hd := depsLoop_nomatch (workPathUriOf oldPath) newPath g.deps ⟨sf, false⟩ h
    cases g with
    | mk deps vh => simp_all [moveGraphFile]
  · rw [moveGraphFile_snd, depsLoop_needsWrite]
    simp [graphMatches]
  · intro h
    simp only [buildInfoMatches, refMapMatches, Bool.or_eq_false_iff] at h
    obtain ⟨⟨⟨⟨hfi, hrm⟩, hem⟩, hfn⟩, hsd⟩ := h
    cases b with
    | mk prog ver =>
      cases prog with
      | mk fn fi rm em sd =>
        simp only at hfi hrm hem hfn hsd
        have e1 := fileInfosLoop_nomatch (workPathUriOf oldPath) newPath (objKeys fi) fi
          ⟨sf', false⟩ hfi
        simp only [moveBuildInfoFile]
        rw [e1]
        rw [refMapLoop_map_nomatch (workPathUriOf oldPath) newPath rm _ hrm1 hrm]
        rw [refMapLoop_state_nomatch (workPathUriOf oldPath) newPath rm _ _ hrm]
        rw [refMapLoop_map_nomatch (workPathUriOf oldPath) newPath em _ hem1 hem]
        rw [refMapLoop_state_nomatch (workPathUriOf oldPath) newPath em _ _ hem]
        rw [depsLoop_nomatch (workPathUriOf oldPath) newPath fn _ hfn]
        rw [depsLoop_nomatch (workPathUriOf oldPath) newPath sd _ hsd]
  · rw [moveBuildInfoFile_snd, depsLoop_needsWrite, depsLoop_needsWrite,
      refMapLoop_needsWrite, refMapLoop_needsWrite, fileInfosLoop_needsWrite]
    simp [buildInfoMatches, refMapMatches, Bool.or_assoc]

theorem reloc_noop_when_no_match_witness :
    ((objKeys okBuildInfo.program.fileInfos).Nodup
      ∧ (objKeys okBuildInfo.program.referencedMap).Nodup
      ∧ (objKeys okBuildInfo.program.exportedModulesMap).Nodup)
    ∧ (moveGraphFile (str "/z") (str "/n") okGraph []).2.needsWrite
        = graphMatches (workPathUriOf (str "/z")) okGraph
    ∧ (moveBuildInfoFile (str "/z") (str "/n") okBuildInfo []).2.needsWrite
        = buildInfoMatches (workPathUriOf (str "/z")) okBuildInfo := by
  refine ⟨by decide, ?_, ?_⟩
  · exact (reloc_noop_when_no_match (str "/z") (str "/n") okGraph okBuildInfo [] []
      (by decide) (by decide) (by decide)).2.1
  · exact (reloc_noop_when_no_match (str "/z") (str "/n") okGraph okBuildInfo [] []
      (by decide) (by decide) (by decide)).2.2.2

/-- Claim C6: every relative path whose string is rewritten anywhere — a
`deps` entry, a `fileInfos` key, a `referencedMap` or `exportedModulesMap` key
or value-list entry, a `fileNames` or `semanticDiagnosticsPerFile` element —
is present in the discovered-source-files set after the pass; the set only
grows (everything already in it stays), and when it starts duplicate-free it
stays duplicate-free, so each path occurs exactly once (set semantics,
duplicate additions collapse). -/
theorem discovery_completeness (oldPath newPath : JsStr) (g : Graph) (b : BuildInfo)
    (sf sf' : List JsStr) (hsf : sf.Nodup) (hsf' : sf'.Nodup) :
    (∀ x ∈ sf, x ∈ (moveGraphFile oldPath newPath g sf).2.sourceFiles)
    ∧ (moveGraphFile oldPath newPath g sf).2.sourceFiles.Nodup
    ∧ (∀ s ∈ g.deps, (workPathUriOf oldPath).isPrefixOf s = true →
        relOf (workPathUriOf oldPath) s ∈ (moveGraphFile oldPath newPath g sf).2.sourceFiles)
    ∧ (∀ x ∈ sf', x ∈ (moveBuildInfoFile oldPath newPath b sf').2.sourceFiles)
    ∧ (moveBuildInfoFile oldPath newPath b sf').2.sourceFiles.Nodup
    ∧ (∀ k ∈ objKeys b.program.fileInfos, (workPathUriOf oldPath).isPrefixOf k = true →
        relOf (workPathUriOf oldPath) k
          ∈ (moveBuildInfoFile oldPath newPath b sf').2.sourceFiles)
    ∧ (∀ p ∈ b.program.referencedMap,
        ((workPathUriOf oldPath).isPrefixOf p.1 = true →
          relOf (workPathUriOf oldPath) p.1
            ∈ (moveBuildInfoFile oldPath newPath b sf').2.sourceFiles)
        ∧ (∀ s ∈ p.2, (workPathUriOf oldPath).isPrefixOf s = true →
            relOf (workPathUriOf oldPath) s
              ∈ (moveBuildInfoFile oldPath newPath b sf').2.sourceFiles))
    ∧ (∀ p ∈ b.program.exportedModulesMap,
        ((workPathUriOf oldPath).isPrefixOf p.1 = true →
          relOf (workPathUriOf oldPath) p.1
            ∈ (moveBuildInfoFile oldPath newPath b sf').2.sourceFiles)
        ∧ (∀ s ∈ p.2, (workPathUriOf oldPath).isPrefixOf s = true →
            relOf (workPathUriOf oldPath) s
              ∈ (moveBuildInfoFile oldPath newPath b sf').2.sourceFiles))
    ∧ (∀ s ∈ b.program.fileNames, (workPathUriOf oldPath).isPrefixOf s = true →
        relOf (workPathUriOf oldPath) s
          ∈ (moveBuildInfoFile oldPath newPath b sf').2.sourceFiles)
    ∧ (∀ s ∈ b.program.semanticDiagnosticsPerFile,
        (workPathUriOf oldPath).isPrefixOf s = true →
        relOf (workPathUriOf oldPath) s
          ∈ (moveBuildInfoFile oldPath newPath b sf').2.sourceFiles) := by
  refine ⟨?_, ?_, ?_, ?_, ?_, ?_, ?_, ?_, ?_, ?_⟩
  · intro x hx
    rw [moveGraphFile_snd]
    exact depsLoop_sf_mono _ _ _ _ hx
  · rw [moveGraphFile_snd]
    exact depsLoop_sf_nodup _ _ _ _ hsf
  · intro s hs hm
    rw [moveGraphFile_snd]
    exact depsLoop_discovers _ _ _ _ hs hm
  · intro x hx
    rw [moveBuildInfoFile_snd]
    exact depsLoop_sf_mono _ _ _ _ (depsLoop_sf_mono _ _ _ _ (refMapLoop_sf_mono _ _ _ _ _
      (refMapLoop_sf_mono _ _ _ _ _ (fileInfosLoop_sf_mono _ _ _ _ _ hx))))
  · rw [moveBuildInfoFile_snd]
    exact depsLoop_sf_nodup _ _ _ _ (depsLoop_sf_nodup _ _ _ _ (refMapLoop_sf_nodup _ _ _ _ _
      (refMapLoop_sf_nodup _ _ _ _ _ (fileInfosLoop_sf_nodup _ _ _ _ _ hsf'))))
  · intro k hk hm
    rw [moveBuildInfoFile_snd]
    exact depsLoop_sf_mono _ _ _ _ (depsLoop_sf_mono _ _ _ _ (refMapLoop_sf_mono _ _ _ _ _
      (refMapLoop_sf_mono _ _ _ _ _ (fileInfosLoop_discovers _ _ _ _ _ hk hm))))
  · intro p hp
    constructor
    · intro hm
      rw [moveBuildInfoFile_snd]
      exact depsLoop_sf_mono _ _ _ _ (depsLoop_sf_mono _ _ _ _ (refMapLoop_sf_mono _ _ _ _ _
        (refMapLoop_discovers_key _ _ _ _ _ (show (p.1, p.2) ∈ b.program.referencedMap by
          simpa using hp) hm)))
    · intro s hs hm
      rw [moveBuildInfoFile_snd]
      exact depsLoop_sf_mono _ _ _ _ (depsLoop_sf_mono _ _ _ _ (refMapLoop_sf_mono _ _ _ _ _
        (refMapLoop_discovers_val _ _ _ _ _ (show (p.1, p.2) ∈ b.program.referencedMap by
          simpa using hp) hs hm)))
  · intro p hp
    constructor
    · intro hm
      rw [moveBuildInfoFile_snd]
      exact depsLoop_sf_mono _ _ _ _ (depsLoop_sf_mono _ _ _ _
        (refMapLoop_discovers_key _ _ _ _ _ (show (p.1, p.2) ∈ b.program.exportedModulesMap by
          simpa using hp) hm))
    · intro s hs hm
      rw [moveBuildInfoFile_snd]
      exact depsLoop_sf_mono _ _ _ _ (depsLoop_sf_mono _ _ _ _
        (refMapLoop_discovers_val _ _ _ _ _ (show (p.1, p.2) ∈ b.program.exportedModulesMap by
          simpa using hp) hs hm))
  · intro s hs hm
    rw [moveBuildInfoFile_snd]
    exact depsLoop_sf_mono _ _ _ _ (depsLoop_discovers _ _ _ _ hs hm)
  · intro s hs hm
    rw [moveBuildInfoFile_snd]
    exact depsLoop_discovers _ _ _ _ hs hm

theorem discovery_completeness_witness :
    (([] : List JsStr).Nodup ∧ (workPathUriOf (str "/a")).isPrefixOf (str "file:///a/x.ts") = true)
    ∧ relOf (workPathUriOf (str "/a")) (str "file:///a/x.ts")
        ∈ (moveGraphFile (str "/a") (str "/n") okGraph []).2.sourceFiles
    ∧ relOf (workPathUriOf (str "/a")) (str "file:///a/k.ts")
        ∈ (moveBuildInfoFile (str "/a") (str "/n") okBuildInfo []).2.sourceFiles := by
  refine ⟨by decide, ?_, ?_⟩
  · exact (discovery_completeness (str "/a") (str "/n") okGraph okBuildInfo [] []
      (by decide) (by decide)).2.2.1 (str "file:///a/x.ts") (by decide) (by decide)
  · exact ((discovery_completeness (str "/a") (str "/n") okGraph okBuildInfo [] []
      (by decide) (by decide)).2.2.2.2.2.2.1
        (str "file:///a/k.ts", [str "file:///a/v.ts", str "https://deno.land/x"])
        (by decide)).1 (by decide)

theorem prefix_incomp {uA uB s : JsStr} (hAB : uA.isPrefixOf uB = false)
    (hBA : uB.isPrefixOf uA = false) (hA : uA.isPrefixOf s = true)
    (hB : uB.isPrefixOf s = true) : False := by
  rw [List.isPrefixOf_iff_prefix] at hA hB
  rcases List.prefix_or_prefix_of_prefix hA hB with h | h
  · rw [← List.isPrefixOf_iff_prefix] at h
    rw [h] at hAB
    cases hAB
  · rw [← List.isPrefixOf_iff_prefix] at h
    rw [h] at hBA
    cases hBA

theorem good_matchA_decomp {uA uB s : JsStr}
    (hg : goodStr uA uB s = true) (hA : uA.isPrefixOf s = true) :
    ∃ r, s = uA ++ '/' :: r := by
  rw [goodStr, hA, if_pos rfl] at hg
  rw [str_slash, List.isPrefixOf_iff_prefix] at hg
  obtain ⟨t, ht⟩ := hg
  exact ⟨t, by rw [← ht]; simp⟩

theorem good_nomatchA_nomatchB {uA uB s : JsStr}
    (hg : goodStr uA uB s = true) (hA : uA.isPrefixOf s = false) :
    uB.isPrefixOf s = false := by
  rw [goodStr, hA] at hg
  simp only [Bool.false_eq_true, if_false] at hg
  rw [Bool.not_eq_true'] at hg
  exact hg

theorem good_not_matchB {uA uB s : JsStr} (hAB : uA.isPrefixOf uB = false)
    (hBA : uB.isPrefixOf uA = false) (hg : goodStr uA uB s = true) :
    uB.isPrefixOf s = false := by
  by_cases hA : uA.isPrefixOf s = true
  · cases hB : uB.isPrefixOf s
    · rfl
    · exact (prefix_incomp hAB hBA hA hB).elim
  · exact good_nomatchA_nomatchB hg (bool_eq_false hA)

theorem updatedOf_rel_slash (B : JsStr) (uA : JsStr) (r : JsStr) :
    updatedOf B (relOf uA (uA ++ '/' :: r)) = workPathUriOf B ++ '/' :: r := by
  rw [relOf_append_cons, updatedOf_eq]

theorem rw_roundtrip (A B s : JsStr)
    (hAB : (workPathUriOf A).isPrefixOf (workPathUriOf B) = false)
    (hBA : (workPathUriOf B).isPrefixOf (workPathUriOf A) = false)
    (hg : goodStr (workPathUriOf A) (workPathUriOf B) s = true) :
    rewriteStr (workPathUriOf B) A (rewriteStr (workPathUriOf A) B s) = s := by
  by_cases hA : (workPathUriOf A).isPrefixOf s = true
  · obtain ⟨r, rfl⟩ := good_matchA_decomp hg hA
    rw [rewriteStr_matching B hA, updatedOf_rel_slash,
      rewriteStr_matching A (isPrefixOf_append_cons _ _ _), updatedOf_rel_slash]
  · have hA' := bool_eq_false hA
    have hB' := good_nomatchA_nomatchB hg hA'
    rw [rewriteStr_not_matching B hA', rewriteStr_not_matching A hB']

theorem list_roundtrip (A B : JsStr) (l : List JsStr)
    (hAB : (workPathUriOf A).isPrefixOf (workPathUriOf B) = false)
    (hBA : (workPathUriOf B).isPrefixOf (workPathUriOf A) = false)
    (hg : goodList (workPathUriOf A) (workPathUriOf B) l = true) :
    (l.map (rewriteStr (workPathUriOf A) B)).map (rewriteStr (workPathUriOf B) A) = l := by
  rw [List.map_map]
  conv_rhs => rw [← List.map_id l]
  apply List.map_congr_left
  intro s hs
  exact rw_roundtrip A B s hAB hBA (List.all_eq_true.mp hg s hs)

theorem good_keys_fresh (A B : JsStr) (keys : List JsStr)
    (hAB : (workPathUriOf A).isPrefixOf (workPathUriOf B) = false)
    (hBA : (workPathUriOf B).isPrefixOf (workPathUriOf A) = false)
    (hg : goodList (workPathUriOf A) (workPathUriOf B) keys = true) :
    (∀ k ∈ keys, (workPathUriOf A).isPrefixOf k = true →
        updatedOf B (relOf (workPathUriOf A) k) ∉ keys)
    ∧ (∀ k ∈ keys, ∀ k' ∈ keys,
        (workPathUriOf A).isPrefixOf k = true → (workPathUriOf A).isPrefixOf k' = true →
        updatedOf B (relOf (workPathUriOf A) k) = updatedOf B (relOf (workPathUriOf A) k')
          → k = k') := by
  constructor
  · intro k hk hm hcon
    obtain ⟨r, rfl⟩ := good_matchA_decomp (List.all_eq_true.mp hg k hk) hm
    rw [updatedOf_rel_slash] at hcon
    have hgood2 := List.all_eq_true.mp hg _ hcon
    have hBp := isPrefixOf_append_cons (workPathUriOf B) '/' r
    rw [good_not_matchB hAB hBA hgood2] at hBp
    cases hBp
  · intro k hk k' hk' hm hm' he
    obtain ⟨r, rfl⟩ := good_matchA_decomp (List.all_eq_true.mp hg k hk) hm
    obtain ⟨r', rfl⟩ := good_matchA_decomp (List.all_eq_true.mp hg k' hk') hm'
    rw [updatedOf_rel_slash, updatedOf_rel_slash] at he
    have hr := List.append_cancel_left he
    rw [List.cons_eq_cons] at hr
    rw [hr.2]

theorem getKey?_cons_ne {α : Type} {p : JsStr × α} {m : JsObject α} {k : JsStr}
    (h : p.1 ≠ k) : getKey? (p :: m) k = getKey? m k := by
  simp [getKey?, List.find?_cons, h]

theorem getKey?_eq_some_of_mem {α : Type} {m : JsObject α} {k : JsStr} {v : α}
    (h1 : (objKeys m).Nodup) (hm : (k, v) ∈ m) : getKey? m k = some v := by
  induction m with
  | nil => cases hm
  | cons p rest ih =>
    rcases List.mem_cons.mp hm with he | hm'
    · rw [← he]
      exact getKey?_cons_self _ _ _
    · have hkrest : k ∈ objKeys rest := mem_objKeys.mpr ⟨(k, v), hm', rfl⟩
      have hpk : p.1 ≠ k := by
        intro he
        rw [objKeys_cons] at h1
        exact (List.nodup_cons.mp h1).1 (he ▸ hkrest)
      rw [getKey?_cons_ne hpk]
      refine ih ?_ hm'
      rw [objKeys_cons] at h1
      exact (List.nodup_cons.mp h1).2

theorem getKey?_mem {α : Type} {m : JsObject α} {k : JsStr} {v : α}
    (h : getKey? m k = some v) : (k, v) ∈ m := by
  rw [getKey?] at h
  obtain ⟨p, hfind, hp2⟩ := Option.map_eq_some'.mp h
  have hpm := List.mem_of_find?_eq_some hfind
  have hpk : p.1 = k := by
    have := List.find?_some hfind
    simpa using this
  have : p = (k, v) := by
    rw [Prod.ext_iff]
    exact ⟨hpk, hp2⟩
  exact this ▸ hpm

theorem getKey?_eq_none_iff {α : Type} {m : JsObject α} {k : JsStr} :
    getKey? m k = none ↔ k ∉ objKeys m := by
  constructor
  · intro h hk
    obtain ⟨p, hp, hpk⟩ := mem_objKeys.mp hk
    rw [getKey?] at h
    have hf := Option.map_eq_none'.mp h
    have hnp := List.find?_eq_none.mp hf p hp
    simp at hnp
    exact hnp hpk
  · exact getKey?_not_mem

theorem getKey?_perm {α : Type} {m m' : JsObject α} (hp : List.Perm m m')
    (h1 : (objKeys m).Nodup) (k : JsStr) : getKey? m' k = getKey? m k := by
  have h1' : (objKeys m').Nodup := by
    rw [objKeys] at h1 ⊢
    exact ((hp.map (·.1)).nodup_iff).mp h1
  cases hq : getKey? m k with
  | none =>
    rw [getKey?_eq_none_iff] at hq ⊢
    intro hc
    obtain ⟨p, hpm', hpk⟩ := mem_objKeys.mp hc
    exact hq (mem_objKeys.mpr ⟨p, hp.symm.subset hpm', hpk⟩)
  | some v =>
    have hmem := getKey?_mem hq
    exact getKey?_eq_some_of_mem h1' (hp.subset hmem)

theorem entries_eq_of_key_eq {α : Type} {m : JsObject α} {p q : JsStr × α}
    (h1 : (objKeys m).Nodup) (hp : p ∈ m) (hq : q ∈ m) (hk : p.1 = q.1) : p = q := by
  have h2 : getKey? m p.1 = some p.2 := getKey?_eq_some_of_mem h1 (by
    have : p = (p.1, p.2) := rfl
    rw [← this]; exact hp)
  have h3 : getKey? m p.1 = some q.2 := by
    rw [hk]
    exact getKey?_eq_some_of_mem h1 (by
      have : q = (q.1, q.2) := rfl
      rw [← this]; exact hq)
  rw [h2] at h3
  exact Prod.ext hk (Option.some.inj h3)

theorem fileInfosLoop_roundtrip (A B : JsStr) (m : JsObject FileInfo) (st1 st2 : MoveState)
    (hAB : (workPathUriOf A).isPrefixOf (workPathUriOf B) = false)
    (hBA : (workPathUriOf B).isPrefixOf (workPathUriOf A) = false)
    (h1 : (objKeys m).Nodup)
    (hg : goodList (workPathUriOf A) (workPathUriOf B) (objKeys m) = true) :
    List.Perm
      (fileInfosLoop (workPathUriOf B) A
        (objKeys (fileInfosLoop (workPathUriOf A) B (objKeys m) m st1).1)
        (fileInfosLoop (workPathUriOf A) B (objKeys m) m st1).1 st2).1
      m := by
  obtain ⟨hfresh1, hinj1⟩ := good_keys_fresh A B (objKeys m) hAB hBA hg
  rw [fileInfosLoop_top (workPathUriOf A) B m st1 h1 hfresh1 hinj1]
  -- names for the two parts of the intermediate object
  have hnm : ∀ x ∈ objKeys (m.filter (fun p => !((workPathUriOf A).isPrefixOf p.1))),
      x ∈ objKeys m ∧ (workPathUriOf A).isPrefixOf x = false
        ∧ (workPathUriOf B).isPrefixOf x = false := by
    intro x hx
    obtain ⟨p, hp, rfl⟩ := mem_objKeys.mp hx
    have hpm := List.mem_filter.mp hp
    have hxa : (workPathUriOf A).isPrefixOf p.1 = false := by
      have := hpm.2
      rw [Bool.not_eq_true'] at this
      exact this
    have hxm : p.1 ∈ objKeys m := mem_objKeys.mpr ⟨p, hpm.1, rfl⟩
    exact ⟨hxm, hxa, good_nomatchA_nomatchB (List.all_eq_true.mp hg _ hxm) hxa⟩
  have hmf : ∀ x ∈ objKeys ((m.filter (fun p => (workPathUriOf A).isPrefixOf p.1)).map
      (fun p => (updatedOf B (relOf (workPathUriOf A) p.1), p.2))),
      ∃ r, x = workPathUriOf B ++ '/' :: r ∧ (workPathUriOf A ++ '/' :: r) ∈ objKeys m := by
    intro x hx
    obtain ⟨q, hq, rfl⟩ := mem_objKeys.mp hx
    obtain ⟨p, hp, rfl⟩ := List.mem_map.mp hq
    have hpm := List.mem_filter.mp hp
    have hxm : p.1 ∈ objKeys m := mem_objKeys.mpr ⟨p, hpm.1, rfl⟩
    obtain ⟨r, hr⟩ := good_matchA_decomp (List.all_eq_true.mp hg _ hxm) hpm.2
    refine ⟨r, ?_, ?_⟩
    · rw [show (updatedOf B (relOf (workPathUriOf A) p.1), p.2).1
          = updatedOf B (relOf (workPathUriOf A) p.1) from rfl, hr, updatedOf_rel_slash]
    · rw [← hr]
      exact hxm
  have hnodupM1 : (objKeys
      (m.filter (fun p => !((workPathUriOf A).isPrefixOf p.1))
        ++ (m.filter (fun p => (workPathUriOf A).isPrefixOf p.1)).map
            (fun p => (updatedOf B (relOf (workPathUriOf A) p.1), p.2)))).Nodup := by
    rw [objKeys_append]
    have hmnodup : m.Nodup := List.Nodup.of_map _ h1
    have hsub : (m.filter (fun p => !((workPathUriOf A).isPrefixOf p.1))).Sublist m :=
      List.filter_sublist m
    have n1 : (objKeys (m.filter (fun p => !((workPathUriOf A).isPrefixOf p.1)))).Nodup := by
      have h1' := h1
      rw [objKeys] at h1'
      rw [objKeys]
      exact List.Nodup.sublist (hsub.map (·.1)) h1'
    have n2 : (objKeys ((m.filter (fun p => (workPathUriOf A).isPrefixOf p.1)).map
        (fun p => (updatedOf B (relOf (workPathUriOf A) p.1), p.2)))).Nodup := by
      rw [objKeys, List.map_map]
      refine List.Nodup.map_on ?_ (List.Nodup.sublist (List.filter_sublist _) hmnodup)
      intro p hp q hq he
      have hpm := List.mem_filter.mp hp
      have hqm := List.mem_filter.mp hq
      have hk := hinj1 p.1 (mem_objKeys.mpr ⟨p, hpm.1, rfl⟩)
        q.1 (mem_objKeys.mpr ⟨q, hqm.1, rfl⟩) hpm.2 hqm.2 he
      exact entries_eq_of_key_eq h1 hpm.1 hqm.1 hk
    refine List.Nodup.append n1 n2 ?_
    intro x hx1 hx2
    obtain ⟨r, hxr, _⟩ := hmf x hx2
    have hxb := (hnm x hx1).2.2
    rw [hxr] at hxb
    rw [isPrefixOf_append_cons] at hxb
    cases hxb
  have hfresh2 : ∀ j ∈ objKeys
      (m.filter (fun p => !((workPathUriOf A).isPrefixOf p.1))
        ++ (m.filter (fun p => (workPathUriOf A).isPrefixOf p.1)).map
            (fun p => (updatedOf B (relOf (workPathUriOf A) p.1), p.2))),
      (workPathUriOf B).isPrefixOf j = true →
      updatedOf A (relOf (workPathUriOf B) j) ∉ objKeys
        (m.filter (fun p => !((workPathUriOf A).isPrefixOf p.1))
          ++ (m.filter (fun p => (workPathUriOf A).isPrefixOf p.1)).map
              (fun p => (updatedOf B (relOf (workPathUriOf A) p.1), p.2))) := by
    rw [objKeys_append]
    intro j hj hmj hcon
    rcases List.mem_append.mp hj with hj1 | hj2
    · rw [(hnm j hj1).2.2] at hmj
      cases hmj
    · obtain ⟨r, rfl, hk0⟩ := hmf j hj2
      rw [updatedOf_rel_slash] at hcon
      rcases List.mem_append.mp hcon with hc1 | hc2
      · have := (hnm _ hc1).2.1
        rw [isPrefixOf_append_cons] at this
        cases this
      · obtain ⟨r', hr', _⟩ := hmf _ hc2
        have hpa := isPrefixOf_append_cons (workPathUriOf A) '/' r
        have hpb : (workPathUriOf B).isPrefixOf (workPathUriOf A ++ '/' :: r) = true := by
          rw [hr']
          exact isPrefixOf_append_cons _ _ _
        exact prefix_incomp hAB hBA hpa hpb
  have hinj2 : ∀ j ∈ objKeys
      (m.filter (fun p => !((workPathUriOf A).isPrefixOf p.1))
        ++ (m.filter (fun p => (workPathUriOf A).isPrefixOf p.1)).map
            (fun p => (updatedOf B (relOf (workPathUriOf A) p.1), p.2))),
      ∀ j' ∈ objKeys
      (m.filter (fun p => !((workPathUriOf A).isPrefixOf p.1))
        ++ (m.filter (fun p => (workPathUriOf A).isPrefixOf p.1)).map
            (fun p => (updatedOf B (relOf (workPathUriOf A) p.1), p.2))),
      (workPathUriOf B).isPrefixOf j = true → (workPathUriOf B).isPrefixOf j' = true →
      updatedOf A (relOf (workPathUriOf B) j) = updatedOf A (relOf (workPathUriOf B) j')
        → j = j' := by
    rw [objKeys_append]
    intro j hj j' hj' hmj hmj' he
    rcases List.mem_append.mp hj with hj1 | hj2
    · rw [(hnm j hj1).2.2] at hmj
      cases hmj
    · rcases List.mem_append.mp hj' with hj1' | hj2'
      · rw [(hnm j' hj1').2.2] at hmj'
        cases hmj'
      · obtain ⟨r, rfl, _⟩ := hmf j hj2
        obtain ⟨r', rfl, _⟩ := hmf j' hj2'
        rw [updatedOf_rel_slash, updatedOf_rel_slash] at he
        have hr := List.append_cancel_left he
        rw [List.cons_eq_cons] at hr
        rw [hr.2]
  rw [fileInfosLoop_top (workPathUriOf B) A _ st2 hnodupM1 hfresh2 hinj2]
  -- compute the two filters over the append
  rw [List.filter_append, List.filter_append]
  have hf1 : (m.filter (fun p => !((workPathUriOf A).isPrefixOf p.1))).filter
      (fun p => !((workPathUriOf B).isPrefixOf p.1))
      = m.filter (fun p => !((workPathUriOf A).isPrefixOf p.1)) := by
    rw [List.filter_eq_self]
    intro p hp
    have := (hnm p.1 (mem_objKeys.mpr ⟨p, hp, rfl⟩)).2.2
    simp [this]
  have hf2 : ((m.filter (fun p => (workPathUriOf A).isPrefixOf p.1)).map
      (fun p => (updatedOf B (relOf (workPathUriOf A) p.1), p.2))).filter
      (fun p => !((workPathUriOf B).isPrefixOf p.1)) = [] := by
    rw [List.filter_eq_nil_iff]
    intro p hp
    obtain ⟨r, hr, _⟩ := hmf p.1 (mem_objKeys.mpr ⟨p, hp, rfl⟩)
    rw [hr, isPrefixOf_append_cons]
    simp
  have hf3 : (m.filter (fun p => !((workPathUriOf A).isPrefixOf p.1))).filter
      (fun p => (workPathUriOf B).isPrefixOf p.1) = [] := by
    rw [List.filter_eq_nil_iff]
    intro p hp
    have := (hnm p.1 (mem_objKeys.mpr ⟨p, hp, rfl⟩)).2.2
    simp [this]
  have hf4 : ((m.filter (fun p => (workPathUriOf A).isPrefixOf p.1)).map
      (fun p => (updatedOf B (relOf (workPathUriOf A) p.1), p.2))).filter
      (fun p => (workPathUriOf B).isPrefixOf p.1)
      = (m.filter (fun p => (workPathUriOf A).isPrefixOf p.1)).map
          (fun p => (updatedOf B (relOf (workPathUriOf A) p.1), p.2)) := by
    rw [List.filter_eq_self]
    intro p hp
    obtain ⟨r, hr, _⟩ := hmf p.1 (mem_objKeys.mpr ⟨p, hp, rfl⟩)
    rw [hr, isPrefixOf_append_cons]
  rw [hf1, hf2, hf3, hf4]
  have hmapback : ((m.filter (fun p => (workPathUriOf A).isPrefixOf p.1)).map
      (fun p => (updatedOf B (relOf (workPathUriOf A) p.1), p.2))).map
      (fun p => (updatedOf A (relOf (workPathUriOf B) p.1), p.2))
      = m.filter (fun p => (workPathUriOf A).isPrefixOf p.1) := by
    rw [List.map_map]
    conv_rhs => rw [← List.map_id (m.filter (fun p => (workPathUriOf A).isPrefixOf p.1))]
    apply List.map_congr_left
    intro p hp
    have hpm := List.mem_filter.mp hp
    have hxm : p.1 ∈ objKeys m := mem_objKeys.mpr ⟨p, hpm.1, rfl⟩
    obtain ⟨r, hr⟩ := good_matchA_decomp (List.all_eq_true.mp hg _ hxm) hpm.2
    show (updatedOf A (relOf (workPathUriOf B)
        (updatedOf B (relOf (workPathUriOf A) p.1), p.2).1), p.2) = p
    rw [show (updatedOf B (relOf (workPathUriOf A) p.1), p.2).1
        = updatedOf B (relOf (workPathUriOf A) p.1) from rfl]
    rw [hr, updatedOf_rel_slash, updatedOf_rel_slash, ← hr]
  simp only [List.nil_append, List.append_nil]
  rw [hmapback]
  exact (List.perm_append_comm).trans
    (List.filter_append_perm (fun p => (workPathUriOf A).isPrefixOf p.1) m)

theorem refMapLoop_roundtrip (A B : JsStr) (m : JsObject (List JsStr)) (st1 st2 : MoveState)
    (hAB : (workPathUriOf A).isPrefixOf (workPathUriOf B) = false)
    (hBA : (workPathUriOf B).isPrefixOf (workPathUriOf A) = false)
    (h1 : (objKeys m).Nodup)
    (hg : goodRefMap (workPathUriOf A) (workPathUriOf B) m = true) :
    List.Perm
      (refMapLoop (workPathUriOf B) A
        (refMapLoop (workPathUriOf A) B m m st1).1
        (refMapLoop (workPathUriOf A) B m m st1).1 st2).1
      m := by
  have hgood : ∀ p ∈ m, goodStr (workPathUriOf A) (workPathUriOf B) p.1 = true
      ∧ goodList (workPathUriOf A) (workPathUriOf B) p.2 = true := by
    intro p hp
    have := List.all_eq_true.mp hg p hp
    rwa [Bool.and_eq_true] at this
  have hgkeys : goodList (workPathUriOf A) (workPathUriOf B) (objKeys m) = true := by
    rw [goodList, List.all_eq_true]
    intro k hk
    obtain ⟨p, hp, rfl⟩ := mem_objKeys.mp hk
    exact (hgood p hp).1
  obtain ⟨hfresh1, hinj1⟩ := good_keys_fresh A B (objKeys m) hAB hBA hgkeys
  rw [refMapLoop_top (workPathUriOf A) B m st1 h1 hfresh1 hinj1]
  have hnm : ∀ x ∈ objKeys ((m.filter (fun p => !((workPathUriOf A).isPrefixOf p.1))).map
      (fun p => (p.1, p.2.map (rewriteStr (workPathUriOf A) B)))),
      x ∈ objKeys m ∧ (workPathUriOf A).isPrefixOf x = false
        ∧ (workPathUriOf B).isPrefixOf x = false := by
    intro x hx
    obtain ⟨q, hq, rfl⟩ := mem_objKeys.mp hx
    obtain ⟨p, hp, rfl⟩ := List.mem_map.mp hq
    have hpm := List.mem_filter.mp hp
    have hxa : (workPathUriOf A).isPrefixOf p.1 = false := by
      have := hpm.2
      rw [Bool.not_eq_true'] at this
      exact this
    have hxm : p.1 ∈ objKeys m := mem_objKeys.mpr ⟨p, hpm.1, rfl⟩
    exact ⟨hxm, hxa, good_nomatchA_nomatchB (hgood p hpm.1).1 hxa⟩
  have hmf : ∀ x ∈ objKeys ((m.filter (fun p => (workPathUriOf A).isPrefixOf p.1)).map
      (fun p => (updatedOf B (relOf (workPathUriOf A) p.1),
        p.2.map (rewriteStr (workPathUriOf A) B)))),
      ∃ r, x = workPathUriOf B ++ '/' :: r ∧ (workPathUriOf A ++ '/' :: r) ∈ objKeys m := by
    intro x hx
    obtain ⟨q, hq, rfl⟩ := mem_objKeys.mp hx
    obtain ⟨p, hp, rfl⟩ := List.mem_map.mp hq
    have hpm := List.mem_filter.mp hp
    have hxm : p.1 ∈ objKeys m := mem_objKeys.mpr ⟨p, hpm.1, rfl⟩
    obtain ⟨r, hr⟩ := good_matchA_decomp (hgood p hpm.1).1 hpm.2
    refine ⟨r, ?_, ?_⟩
    · rw [show (updatedOf B (relOf (workPathUriOf A) p.1),
          p.2.map (rewriteStr (workPathUriOf A) B)).1
          = updatedOf B (relOf (workPathUriOf A) p.1) from rfl, hr, updatedOf_rel_slash]
    · rw [← hr]
      exact hxm
  have hnodupM1 : (objKeys
      ((m.filter (fun p => !((workPathUriOf A).isPrefixOf p.1))).map
          (fun p => (p.1, p.2.map (rewriteStr (workPathUriOf A) B)))
        ++ (m.filter (fun p => (workPathUriOf A).isPrefixOf p.1)).map
            (fun p => (updatedOf B (relOf (workPathUriOf A) p.1),
              p.2.map (rewriteStr (workPathUriOf A) B))))).Nodup := by
    rw [objKeys_append]
    have hmnodup : m.Nodup := List.Nodup.of_map _ h1
    have n1 : (objKeys ((m.filter (fun p => !((workPathUriOf A).isPrefixOf p.1))).map
        (fun p => (p.1, p.2.map (rewriteStr (workPathUriOf A) B))))).Nodup := by
      rw [objKeys, List.map_map]
      have hsub : (m.filter (fun p => !((workPathUriOf A).isPrefixOf p.1))).Sublist m :=
        List.filter_sublist m
      have h1' := h1
      rw [objKeys] at h1'
      exact List.Nodup.sublist (hsub.map _) h1'
    have n2 : (objKeys ((m.filter (fun p => (workPathUriOf A).isPrefixOf p.1)).map
        (fun p => (updatedOf B (relOf (workPathUriOf A) p.1),
          p.2.map (rewriteStr (workPathUriOf A) B))))).Nodup := by
      rw [objKeys, List.map_map]
      refine List.Nodup.map_on ?_ (List.Nodup.sublist (List.filter_sublist _) hmnodup)
      intro p hp q hq he
      have hpm := List.mem_filter.mp hp
      have hqm := List.mem_filter.mp hq
      have hk := hinj1 p.1 (mem_objKeys.mpr ⟨p, hpm.1, rfl⟩)
        q.1 (mem_objKeys.mpr ⟨q, hqm.1, rfl⟩) hpm.2 hqm.2 he
      exact entries_eq_of_key_eq h1 hpm.1 hqm.1 hk
    refine List.Nodup.append n1 n2 ?_
    intro x hx1 hx2
    obtain ⟨r, hxr, _⟩ := hmf x hx2
    have hxb := (hnm x hx1).2.2
    rw [hxr] at hxb
    rw [isPrefixOf_append_cons] at hxb
    cases hxb
  have hfresh2 : ∀ j ∈ objKeys
      ((m.filter (fun p => !((workPathUriOf A).isPrefixOf p.1))).map
          (fun p => (p.1, p.2.map (rewriteStr (workPathUriOf A) B)))
        ++ (m.filter (fun p => (workPathUriOf A).isPrefixOf p.1)).map
            (fun p => (updatedOf B (relOf (workPathUriOf A) p.1),
              p.2.map (rewriteStr (workPathUriOf A) B)))),
      (workPathUriOf B).isPrefixOf j = true →
      updatedOf A (relOf (workPathUriOf B) j) ∉ objKeys
        ((m.filter (fun p => !((workPathUriOf A).isPrefixOf p.1))).map
            (fun p => (p.1, p.2.map (rewriteStr (workPathUriOf A) B)))
          ++ (m.filter (fun p => (workPathUriOf A).isPrefixOf p.1)).map
              (fun p => (updatedOf B (relOf (workPathUriOf A) p.1),
                p.2.map (rewriteStr (workPathUriOf A) B)))) := by
    rw [objKeys_append]
    intro j hj hmj hcon
    rcases List.mem_append.mp hj with hj1 | hj2
    · rw [(hnm j hj1).2.2] at hmj
      cases hmj
    · obtain ⟨r, rfl, hk0⟩ := hmf j hj2
      rw [updatedOf_rel_slash] at hcon
      rcases List.mem_append.mp hcon with hc1 | hc2
      · have := (hnm _ hc1).2.1
        rw [isPrefixOf_append_cons] at this
        cases this
      · obtain ⟨r', hr', _⟩ := hmf _ hc2
        have hpa := isPrefixOf_append_cons (workPathUriOf A) '/' r
        have hpb : (workPathUriOf B).isPrefixOf (workPathUriOf A ++ '/' :: r) = true := by
          rw [hr']
          exact isPrefixOf_append_cons _ _ _
        exact prefix_incomp hAB hBA hpa hpb
  have hinj2 : ∀ j ∈ objKeys
      ((m.filter (fun p => !((workPathUriOf A).isPrefixOf p.1))).map
          (fun p => (p.1, p.2.map (rewriteStr (workPathUriOf A) B)))
        ++ (m.filter (fun p => (workPathUriOf A).isPrefixOf p.1)).map
            (fun p => (updatedOf B (relOf (workPathUriOf A) p.1),
              p.2.map (rewriteStr (workPathUriOf A) B)))),
      ∀ j' ∈ objKeys
      ((m.filter (fun p => !((workPathUriOf A).isPrefixOf p.1))).map
          (fun p => (p.1, p.2.map (rewriteStr (workPathUriOf A) B)))
        ++ (m.filter (fun p => (workPathUriOf A).isPrefixOf p.1)).map
            (fun p => (updatedOf B (relOf (workPathUriOf A) p.1),
              p.2.map (rewriteStr (workPathUriOf A) B)))),
      (workPathUriOf B).isPrefixOf j = true → (workPathUriOf B).isPrefixOf j' = true →
      updatedOf A (relOf (workPathUriOf B) j) = updatedOf A (relOf (workPathUriOf B) j')
        → j = j' := by
    rw [objKeys_append]
    intro j hj j' hj' hmj hmj' he
    rcases List.mem_append.mp hj with hj1 | hj2
    · rw [(hnm j hj1).2.2] at hmj
      cases hmj
    · rcases List.mem_append.mp hj' with hj1' | hj2'
      · rw [(hnm j' hj1').2.2] at hmj'
        cases hmj'
      · obtain ⟨r, rfl, _⟩ := hmf j hj2
        obtain ⟨r', rfl, _⟩ := hmf j' hj2'
        rw [updatedOf_rel_slash, updatedOf_rel_slash] at he
        have hr := List.append_cancel_left he
        rw [List.cons_eq_cons] at hr
        rw [hr.2]
  rw [refMapLoop_top (workPathUriOf B) A _ st2 hnodupM1 hfresh2 hinj2]
  rw [List.filter_append, List.filter_append]
  have hf1 : ((m.filter (fun p => !((workPathUriOf A).isPrefixOf p.1))).map
      (fun p => (p.1, p.2.map (rewriteStr (workPathUriOf A) B)))).filter
      (fun p => !((workPathUriOf B).isPrefixOf p.1))
      = (m.filter (fun p => !((workPathUriOf A).isPrefixOf p.1))).map
          (fun p => (p.1, p.2.map (rewriteStr (workPathUriOf A) B))) := by
    rw [List.filter_eq_self]
    intro p hp
    have := (hnm p.1 (mem_objKeys.mpr ⟨p, hp, rfl⟩)).2.2
    simp [this]
  have hf2 : ((m.filter (fun p => (workPathUriOf A).isPrefixOf p.1)).map
      (fun p => (updatedOf B (relOf (workPathUriOf A) p.1),
        p.2.map (rewriteStr (workPathUriOf A) B)))).filter
      (fun p => !((workPathUriOf B).isPrefixOf p.1)) = [] := by
    rw [List.filter_eq_nil_iff]
    intro p hp
    obtain ⟨r, hr, _⟩ := hmf p.1 (mem_objKeys.mpr ⟨p, hp, rfl⟩)
    rw [hr, isPrefixOf_append_cons]
    simp
  have hf3 : ((m.filter (fun p => !((workPathUriOf A).isPrefixOf p.1))).map
      (fun p => (p.1, p.2.map (rewriteStr (workPathUriOf A) B)))).filter
      (fun p => (workPathUriOf B).isPrefixOf p.1) = [] := by
    rw [List.filter_eq_nil_iff]
    intro p hp
    have := (hnm p.1 (mem_objKeys.mpr ⟨p, hp, rfl⟩)).2.2
    simp [this]
  have hf4 : ((m.filter (fun p => (workPathUriOf A).isPrefixOf p.1)).map
      (fun p => (updatedOf B (relOf (workPathUriOf A) p.1),
        p.2.map (rewriteStr (workPathUriOf A) B)))).filter
      (fun p => (workPathUriOf B).isPrefixOf p.1)
      = (m.filter (fun p => (workPathUriOf A).isPrefixOf p.1)).map
          (fun p => (updatedOf B (relOf (workPathUriOf A) p.1),
            p.2.map (rewriteStr (workPathUriOf A) B))) := by
    rw [List.filter_eq_self]
    intro p hp
    obtain ⟨r, hr, _⟩ := hmf p.1 (mem_objKeys.mpr ⟨p, hp, rfl⟩)
    rw [hr, isPrefixOf_append_cons]
  rw [hf1, hf2, hf3, hf4]
  have hback1 : ((m.filter (fun p => !((workPathUriOf A).isPrefixOf p.1))).map
      (fun p => (p.1, p.2.map (rewriteStr (workPathUriOf A) B)))).map
      (fun p => (p.1, p.2.map (rewriteStr (workPathUriOf B) A)))
      = m.filter (fun p => !((workPathUriOf A).isPrefixOf p.1)) := by
    rw [List.map_map]
    conv_rhs => rw [← List.map_id (m.filter (fun p => !((workPathUriOf A).isPrefixOf p.1)))]
    apply List.map_congr_left
    intro p hp
    have hpm := List.mem_filter.mp hp
    show ((p.1, p.2.map (rewriteStr (workPathUriOf A) B)).1,
      (p.1, p.2.map (rewriteStr (workPathUriOf A) B)).2.map (rewriteStr (workPathUriOf B) A)) = p
    rw [show (p.1, p.2.map (rewriteStr (workPathUriOf A) B)).1 = p.1 from rfl,
      show (p.1, p.2.map (rewriteStr (workPathUriOf A) B)).2
        = p.2.map (rewriteStr (workPathUriOf A) B) from rfl]
    rw [list_roundtrip A B p.2 hAB hBA (hgood p hpm.1).2]
  have hback2 : ((m.filter (fun p => (workPathUriOf A).isPrefixOf p.1)).map
      (fun p => (updatedOf B (relOf (workPathUriOf A) p.1),
        p.2.map (rewriteStr (workPathUriOf A) B)))).map
      (fun p => (updatedOf A (relOf (workPathUriOf B) p.1),
        p.2.map (rewriteStr (workPathUriOf B) A)))
      = m.filter (fun p => (workPathUriOf A).isPrefixOf p.1) := by
    rw [List.map_map]
    conv_rhs => rw [← List.map_id (m.filter (fun p => (workPathUriOf A).isPrefixOf p.1))]
    apply List.map_congr_left
    intro p hp
    have hpm := List.mem_filter.mp hp
    have hxm : p.1 ∈ objKeys m := mem_objKeys.mpr ⟨p, hpm.1, rfl⟩
    obtain ⟨r, hr⟩ := good_matchA_decomp (hgood p hpm.1).1 hpm.2
    show (updatedOf A (relOf (workPathUriOf B)
        (updatedOf B (relOf (workPathUriOf A) p.1), p.2.map (rewriteStr (workPathUriOf A) B)).1),
      (updatedOf B (relOf (workPathUriOf A) p.1),
        p.2.map (rewriteStr (workPathUriOf A) B)).2.map (rewriteStr (workPathUriOf B) A)) = p
    rw [show (updatedOf B (relOf (workPathUriOf A) p.1),
        p.2.map (rewriteStr (workPathUriOf A) B)).1
        = updatedOf B (relOf (workPathUriOf A) p.1) from rfl,
      show (updatedOf B (relOf (workPathUriOf A) p.1),
        p.2.map (rewriteStr (workPathUriOf A) B)).2
        = p.2.map (rewriteStr (workPathUriOf A) B) from rfl]
    rw [list_roundtrip A B p.2 hAB hBA (hgood p hpm.1).2]
    rw [hr, updatedOf_rel_slash, updatedOf_rel_slash, ← hr]
  simp only [List.nil_append, List.append_nil]
  rw [hback1, hback2]
  exact (List.perm_append_comm).trans
    (List.filter_append_perm (fun p => (workPathUriOf A).isPrefixOf p.1) m)

theorem keys_iff_of_getKey?_ext {α : Type} {m m' : JsObject α}
    (h : ∀ k, getKey? m' k = getKey? m k) (k : JsStr) :
    k ∈ objKeys m' ↔ k ∈ objKeys m := by
  constructor
  · intro hk
    by_contra hcon
    have hn := getKey?_not_mem hcon
    rw [← h] at hn
    exact (getKey?_eq_none_iff.mp hn) hk
  · intro hk
    by_contra hcon
    have hn := getKey?_not_mem hcon
    rw [h] at hn
    exact (getKey?_eq_none_iff.mp hn) hk

/-- Claim C5 is false as stated: a counterexample.  `badSepGraph` has the dep
`file:///aXy`; relocating A=/a → B=/b treats the `X` as the separator and
yields `file:///b/y`, and relocating back yields `file:///a/y` ≠ the
original, so the A→B→A round trip does not restore the document. -/
theorem reloc_roundtrip_cex :
    (moveGraphFile (str "/b") (str "/a")
      (moveGraphFile (str "/a") (str "/b") badSepGraph []).1 []).1 ≠ badSepGraph := by
  decide

/-- Claim C5 (corrected): the A→B→A round trip restores the document provided
the two root URIs are prefix-incomparable, every string matching one root
extends it with a `'/'` separator, no string matching A also matches B or vice
versa (the `goodGraph`/`goodBuildInfo` side conditions), and each map's keys
are distinct.  Then the graph, `fileNames`, `semanticDiagnosticsPerFile` and
`version` come back equal with sequence order preserved exactly, and the three
maps come back with the same key sets and the same key-to-value association
(`getKey?` agrees everywhere; key enumeration order may differ). -/
theorem reloc_roundtrip_restores (A B : JsStr) (g : Graph) (b : BuildInfo)
    (sfa sfb sfc sfd : List JsStr)
    (hAB : (workPathUriOf A).isPrefixOf (workPathUriOf B) = false)
    (hBA : (workPathUriOf B).isPrefixOf (workPathUriOf A) = false)
    (hgg : goodGraph (workPathUriOf A) (workPathUriOf B) g = true)
    (hgb : goodBuildInfo (workPathUriOf A) (workPathUriOf B) b = true)
    (hfi1 : (objKeys b.program.fileInfos).Nodup)
    (hrm1 : (objKeys b.program.referencedMap).Nodup)
    (hem1 : (objKeys b.program.exportedModulesMap).Nodup) :
    (moveGraphFile B A (moveGraphFile A B g sfa).1 sfb).1 = g
    ∧ (moveBuildInfoFile B A (moveBuildInfoFile A B b sfc).1 sfd).1.program.fileNames
        = b.program.fileNames
    ∧ (moveBuildInfoFile B A
        (moveBuildInfoFile A B b sfc).1 sfd).1.program.semanticDiagnosticsPerFile
        = b.program.semanticDiagnosticsPerFile
    ∧ (moveBuildInfoFile B A (moveBuildInfoFile A B b sfc).1 sfd).1.version = b.version
    ∧ (∀ k, getKey? (moveBuildInfoFile B A
          (moveBuildInfoFile A B b sfc).1 sfd).1.program.fileInfos k
        = getKey? b.program.fileInfos k)
    ∧ (∀ k, k ∈ objKeys (moveBuildInfoFile B A
          (moveBuildInfoFile A B b sfc).1 sfd).1.program.fileInfos
        ↔ k ∈ objKeys b.program.fileInfos)
    ∧ (∀ k, getKey? (moveBuildInfoFile B A
          (moveBuildInfoFile A B b sfc).1 sfd).1.program.referencedMap k
        = getKey? b.program.referencedMap k)
    ∧ (∀ k, k ∈ objKeys (moveBuildInfoFile B A
          (moveBuildInfoFile A B b sfc).1 sfd).1.program.referencedMap
        ↔ k ∈ objKeys b.program.referencedMap)
    ∧ (∀ k, getKey? (moveBuildInfoFile B A
          (moveBuildInfoFile A B b sfc).1 sfd).1.program.exportedModulesMap k
        = getKey? b.program.exportedModulesMap k)
    ∧ (∀ k, k ∈ objKeys (moveBuildInfoFile B A
          (moveBuildInfoFile A B b sfc).1 sfd).1.program.exportedModulesMap
        ↔ k ∈ objKeys b.program.exportedModulesMap) := by
  have hgbs : goodList (workPathUriOf A) (workPathUriOf B) (objKeys b.program.fileInfos) = true
      ∧ goodRefMap (workPathUriOf A) (workPathUriOf B) b.program.referencedMap = true
      ∧ goodRefMap (workPathUriOf A) (workPathUriOf B) b.program.exportedModulesMap = true
      ∧ goodList (workPathUriOf A) (workPathUriOf B) b.program.fileNames = true
      ∧ goodList (workPathUriOf A) (workPathUriOf B)
          b.program.semanticDiagnosticsPerFile = true := by
    rw [goodBuildInfo] at hgb
    simp only [Bool.and_eq_true] at hgb
    exact ⟨hgb.1.1.1.1, hgb.1.1.1.2, hgb.1.1.2, hgb.1.2, hgb.2⟩
  have hfiext : ∀ k, getKey? (moveBuildInfoFile B A
      (moveBuildInfoFile A B b sfc).1 sfd).1.program.fileInfos k
      = getKey? b.program.fileInfos k := by
    intro k
    rw [moveBuildInfoFile_fileInfos B A ((moveBuildInfoFile A B b sfc).1) sfd,
      moveBuildInfoFile_fileInfos A B b sfc]
    exact getKey?_perm (List.Perm.symm
      (fileInfosLoop_roundtrip A B b.program.fileInfos _ _ hAB hBA hfi1 hgbs.1)) hfi1 k
  have hrmext : ∀ k, getKey? (moveBuildInfoFile B A
      (moveBuildInfoFile A B b sfc).1 sfd).1.program.referencedMap k
      = getKey? b.program.referencedMap k := by
    intro k
    rw [moveBuildInfoFile_referencedMap B A ((moveBuildInfoFile A B b sfc).1) sfd,
      moveBuildInfoFile_referencedMap A B b sfc]
    exact getKey?_perm (List.Perm.symm
      (refMapLoop_roundtrip A B b.program.referencedMap _ _ hAB hBA hrm1 hgbs.2.1)) hrm1 k
  have hemext : ∀ k, getKey? (moveBuildInfoFile B A
      (moveBuildInfoFile A B b sfc).1 sfd).1.program.exportedModulesMap k
      = getKey? b.program.exportedModulesMap k := by
    intro k
    rw [moveBuildInfoFile_exportedModulesMap B A ((moveBuildInfoFile A B b sfc).1) sfd,
      moveBuildInfoFile_exportedModulesMap A B b sfc]
    exact getKey?_perm (List.Perm.symm
      (refMapLoop_roundtrip A B b.program.exportedModulesMap _ _ hAB hBA hem1 hgbs.2.2.1))
      hem1 k
  refine ⟨?_, ?_, ?_, rfl, hfiext, fun k => keys_iff_of_getKey?_ext hfiext k,
    hrmext, fun k => keys_iff_of_getKey?_ext hrmext k,
    hemext, fun k => keys_iff_of_getKey?_ext hemext k⟩
  · cases g with
    | mk deps vh =>
      rw [show (moveGraphFile A B (Graph.mk deps vh) sfa).1
          = Graph.mk (depsLoop (workPathUriOf A) B deps ⟨sfa, false⟩).1 vh from rfl]
      rw [depsLoop_fst]
      rw [show (moveGraphFile B A
          (Graph.mk (deps.map (rewriteStr (workPathUriOf A) B)) vh) sfb).1
          = Graph.mk (depsLoop (workPathUriOf B) A
              (deps.map (rewriteStr (workPathUriOf A) B)) ⟨sfb, false⟩).1 vh from rfl]
      rw [depsLoop_fst]
      rw [list_roundtrip A B deps hAB hBA hgg]
  · rw [moveBuildInfoFile_fileNames, depsLoop_fst, moveBuildInfoFile_fileNames, depsLoop_fst]
    exact list_roundtrip A B b.program.fileNames hAB hBA hgbs.2.2.2.1
  · rw [moveBuildInfoFile_sdpf, depsLoop_fst, moveBuildInfoFile_sdpf, depsLoop_fst]
    exact list_roundtrip A B b.program.semanticDiagnosticsPerFile hAB hBA hgbs.2.2.2.2

theorem reloc_roundtrip_restores_witness :
    ((workPathUriOf (str "/a")).isPrefixOf (workPathUriOf (str "/b")) = false
      ∧ goodGraph (workPathUriOf (str "/a")) (workPathUriOf (str "/b")) okGraph = true
      ∧ goodBuildInfo (workPathUriOf (str "/a")) (workPathUriOf (str "/b")) okBuildInfo = true)
    ∧ (moveGraphFile (str "/b") (str "/a")
        (moveGraphFile (str "/a") (str "/b") okGraph []).1 []).1 = okGraph
    ∧ getKey? (moveBuildInfoFile (str "/b") (str "/a")
        (moveBuildInfoFile (str "/a") (str "/b") okBuildInfo []).1 []).1.program.referencedMap
        (str "file:///a/k.ts")
      = getKey? okBuildInfo.program.referencedMap (str "file:///a/k.ts") := by
  refine ⟨by decide, ?_, ?_⟩
  · exact (reloc_roundtrip_restores (str "/a") (str "/b") okGraph okBuildInfo [] [] [] []
      (by decide) (by decide) (by decide) (by decide)
      (by decide) (by decide) (by decide)).1
  · exact (reloc_roundtrip_restores (str "/a") (str "/b") okGraph okBuildInfo [] [] [] []
      (by decide) (by decide) (by decide) (by decide)
      (by decide) (by decide) (by decide)).2.2.2.2.2.2.1 (str "file:///a/k.ts")

end VercelDeno


namespace VercelDeno

/-- Claim C7 is false for the cleanup half: a counterexample.  Pruning the
directory `a` on an empty filesystem hits "entry does not exist" on the very
first `readDir` and `deleteEmptyDirs`, having no error handling at all,
propagates the error instead of tolerating it. -/
theorem cleanup_enoent_cex :
    deleteEmptyDirs [] [str "a"] = Except.error FsErr.enoent := by rfl

/-- Claim C7 (corrected): the "entry does not exist" tolerance exists only in
port-file polling — `waitForPortFile` skips an ENOENT read and keeps polling,
rethrows any other error, and returns the data on a successful read — whereas
the directory-cleanup step tolerates nothing: `deleteEmptyDirs` propagates
every filesystem error, ENOENT from `readDir` and errors from `remove`
alike. -/
theorem error_tolerance_policy :
    (∀ rs, waitForPortFile (Except.error FsErr.enoent :: rs) = waitForPortFile rs)
    ∧ (∀ e rs, e ≠ FsErr.enoent → waitForPortFile (Except.error e :: rs) = Except.error e)
    ∧ (∀ data rs, waitForPortFile (Except.ok data :: rs) = Except.ok (some data))
    ∧ (∀ fs dir e, readdir fs dir = Except.error e → deleteEmptyDirs fs dir = Except.error e)
    ∧ (∀ fs dir e files, readdir fs dir = Except.ok files → files.length = 0 →
        rmdir fs dir = Except.error e → deleteEmptyDirs fs dir = Except.error e) := by
  refine ⟨?_, ?_, ?_, ?_, ?_⟩
  · intro rs
    simp [waitForPortFile]
  · intro e rs he
    simp [waitForPortFile, he]
  · intro data rs
    simp [waitForPortFile]
  · intro fs dir e h
    rw [deleteEmptyDirs, h]
  · intro fs dir e files h hlen hrm
    rw [deleteEmptyDirs, h]
    simp only [hlen, ne_eq, not_true_eq_false, if_false]
    rw [hrm]

theorem error_tolerance_policy_witness :
    (FsErr.eperm ≠ FsErr.enoent
      ∧ readdir ([] : Fs) [str "a"] = Except.error FsErr.enoent)
    ∧ waitForPortFile [Except.error FsErr.eperm] = Except.error FsErr.eperm
    ∧ deleteEmptyDirs ([] : Fs) [str "a"] = Except.error FsErr.enoent := by
  refine ⟨⟨by decide, by rfl⟩, ?_, ?_⟩
  · exact error_tolerance_policy.2.1 FsErr.eperm [] (by decide)
  · exact error_tolerance_policy.2.2.2.1 [] [str "a"] FsErr.enoent (by rfl)

end VercelDeno

namespace VercelDeno

/-- Claim C8: when the control endpoint answers the `invocation/next`
long-poll with any non-200 status, the loop raises the protocol error
"Unexpected invocation next response" outside its try/catch: the run ends
fatally, the handler module is never imported, the handler is never invoked
for that or any later event, no response or error is ever posted, and the
top-level catch exits the process with code 1, which is non-zero. -/
theorem non_success_next_fatal (env : RuntimeEnv) (r : NextResp) (rs : List NextResp)
    (h : r.status ≠ 200) :
    (runLoop env (r :: rs)).outcome
        = RunOutcome.fatal (str "Unexpected invocation next response")
    ∧ (runLoop env (r :: rs)).importAttempts = 0
    ∧ (runLoop env (r :: rs)).handlerCalls = 0
    ∧ (runLoop env (r :: rs)).posts = []
    ∧ runtimeExitCode env (r :: rs) = some 1
    ∧ (1 : Nat) ≠ 0 := by
  have hre : runLoop env (r :: rs) =
      { posts := [], importAttempts := 0, handlerCalls := 0,
        outcome := RunOutcome.fatal (str "Unexpected invocation next response") } := by
    rw [runLoop]
    simp only [processEvents]
    rw [if_pos h]
    rfl
  refine ⟨by rw [hre], by rw [hre], by rw [hre], by rw [hre], ?_, by decide⟩
  rw [runtimeExitCode, runLoop] at *
  rw [hre]

theorem non_success_next_fatal_witness :
    (nr500.status ≠ 200)
    ∧ (runLoop envOk [nr500]).importAttempts = 0
    ∧ (runLoop envOk [nr500]).handlerCalls = 0
    ∧ (runLoop envOk [nr500]).posts = []
    ∧ runtimeExitCode envOk [nr500] = some 1 := by
  refine ⟨by decide, ?_, ?_, ?_, ?_⟩
  · exact (non_success_next_fatal envOk nr500 [] (by decide)).2.1
  · exact (non_success_next_fatal envOk nr500 [] (by decide)).2.2.1
  · exact (non_success_next_fatal envOk nr500 [] (by decide)).2.2.2.1
  · exact (non_success_next_fatal envOk nr500 [] (by decide)).2.2.2.2.1

/-- Claim C9 is false in its "imported exactly once" part: a counterexample.
With an environment whose dynamic import always rejects, a protocol-error-free
script of two invocations attempts the import twice — once per invocation —
because the `handler` variable stays unset after a failed import and the
`if (!handler)` check re-enters the import on the next event. -/
theorem import_retry_cex :
    (∀ r ∈ [nrOk "aws-1", nrOk "aws-2"],
        r.status = 200 ∧ r.awsRequestId.isSome = true ∧ r.eventParse.isSome = true)
    ∧ (runLoop envRejects [nrOk "aws-1", nrOk "aws-2"]).outcome = RunOutcome.scriptDone
    ∧ (runLoop envRejects [nrOk "aws-1", nrOk "aws-2"]).importAttempts = 2 := by
  refine ⟨by decide, rfl, rfl⟩

theorem invokeBody_calls_le_one (env : RuntimeEnv) (h : HandlerVal) (ev : InvEvent) :
    (invokeBody env h ev).1 ≤ 1 := by
  unfold invokeBody
  repeat' split
  all_goals try simp
  all_goals repeat' split
  all_goals simp

theorem processEvents_loaded (env : RuntimeEnv) (f : HandlerFn)
    (hpost : ∀ id, env.responseStatus id = 202 ∧ env.errorStatus id = 202) :
    ∀ (script : List NextResp) (acc : RunAcc),
    (∀ r ∈ script, r.status = 200 ∧ r.awsRequestId.isSome = true
      ∧ r.eventParse.isSome = true) →
    (processEvents env script (some (HandlerVal.callable f)) acc).outcome
        = RunOutcome.scriptDone
    ∧ (processEvents env script (some (HandlerVal.callable f)) acc).importAttempts
        = acc.importAttempts
    ∧ (processEvents env script (some (HandlerVal.callable f)) acc).handlerCalls
        ≤ acc.handlerCalls + script.length
    ∧ (processEvents env script (some (HandlerVal.callable f)) acc).posts.map
          (fun p => p.awsRequestId)
        = acc.posts.map (fun p => p.awsRequestId)
          ++ script.map (fun r => r.awsRequestId.getD []) := by
  intro script
  induction script with
  | nil =>
    intro acc hok
    simp [processEvents]
  | cons r rs ih =>
    intro acc hok
    obtain ⟨h200, hid, hev⟩ := hok r (List.mem_cons_self _ _)
    obtain ⟨id, hid'⟩ := Option.isSome_iff_exists.mp hid
    obtain ⟨ev, hev'⟩ := Option.isSome_iff_exists.mp hev
    have hnot : ¬ (r.status ≠ 200) := by simp [h200]
    have htry : tryInvoke env (some (HandlerVal.callable f)) ev
        = (some (HandlerVal.callable f), 0, (invokeBody env (HandlerVal.callable f) ev).1,
            (invokeBody env (HandlerVal.callable f) ev).2) := rfl
    simp only [processEvents, if_neg hnot, hid', hev', htry]
    cases hres : (invokeBody env (HandlerVal.callable f) ev).2 with
    | ok result =>
      simp only [hres, (hpost id).1, eq_self_iff_true, if_true]
      have hrec := ih
        { posts := acc.posts ++ [⟨id, PostKind.response⟩],
          importAttempts := acc.importAttempts + 0,
          handlerCalls := acc.handlerCalls + (invokeBody env (HandlerVal.callable f) ev).1 }
        (fun r' hr' => hok r' (List.mem_cons_of_mem _ hr'))
      refine ⟨hrec.1, ?_, ?_, ?_⟩
      · rw [hrec.2.1]
        simp
      · refine le_trans hrec.2.2.1 ?_
        have hle := invokeBody_calls_le_one env (HandlerVal.callable f) ev
        simp only [List.length_cons]
        omega
      · rw [hrec.2.2.2]
        simp [hid']
    | error e =>
      simp only [hres, (hpost id).2, eq_self_iff_true, if_true]
      have hrec := ih
        { posts := acc.posts ++ [⟨id, PostKind.error⟩],
          importAttempts := acc.importAttempts + 0,
          handlerCalls := acc.handlerCalls + (invokeBody env (HandlerVal.callable f) ev).1 }
        (fun r' hr' => hok r' (List.mem_cons_of_mem _ hr'))
      refine ⟨hrec.1, ?_, ?_, ?_⟩
      · rw [hrec.2.1]
        simp
      · refine le_trans hrec.2.2.1 ?_
        have hle := invokeBody_calls_le_one env (HandlerVal.callable f) ev
        simp only [List.length_cons]
        omega
      · rw [hrec.2.2.2]
        simp [hid']

/-- Claim C9 (corrected): for a script of N protocol-error-free invocation
events (status 200, request id present, body parseable) whose POSTs are all
acknowledged with 202, and whose dynamic import succeeds with a callable
default export, the loop finishes the whole script, imports the handler module
exactly once (on the first invocation; zero times when N = 0), invokes the
handler at most N times, and issues exactly one response-or-error POST per
invocation, carrying the invocations' request ids in delivery order — the
sequential interpreter never starts the next long-poll before the current
invocation's POST.  (Were the import to keep failing it would be re-attempted
on every invocation: see the counterexample above.) -/
theorem loop_cardinality_when_import_ok (env : RuntimeEnv) (f : HandlerFn)
    (script : List NextResp)
    (himp : env.importHandler = ImportOutcome.callable f)
    (hok : ∀ r ∈ script, r.status = 200 ∧ r.awsRequestId.isSome = true
      ∧ r.eventParse.isSome = true)
    (hpost : ∀ id, env.responseStatus id = 202 ∧ env.errorStatus id = 202) :
    (runLoop env script).outcome = RunOutcome.scriptDone
    ∧ (runLoop env script).importAttempts = (if script.isEmpty then 0 else 1)
    ∧ (runLoop env script).handlerCalls ≤ script.length
    ∧ (runLoop env script).posts.map (fun p => p.awsRequestId)
        = script.map (fun r => r.awsRequestId.getD []) := by
  cases script with
  | nil => simp [runLoop, processEvents, zeroAcc]
  | cons r rs =>
    obtain ⟨h200, hid, hev⟩ := hok r (List.mem_cons_self _ _)
    obtain ⟨id, hid'⟩ := Option.isSome_iff_exists.mp hid
    obtain ⟨ev, hev'⟩ := Option.isSome_iff_exists.mp hev
    have hnot : ¬ (r.status ≠ 200) := by simp [h200]
    have htry : tryInvoke env none ev
        = (some (HandlerVal.callable f), 1, (invokeBody env (HandlerVal.callable f) ev).1,
            (invokeBody env (HandlerVal.callable f) ev).2) := by
      simp only [tryInvoke, himp]
    rw [runLoop]
    simp only [processEvents, if_neg hnot, hid', hev', htry]
    cases hres : (invokeBody env (HandlerVal.callable f) ev).2 with
    | ok result =>
      simp only [hres, (hpost id).1, eq_self_iff_true, if_true]
      have hrec := processEvents_loaded env f hpost rs
        { posts := zeroAcc.posts ++ [⟨id, PostKind.response⟩],
          importAttempts := zeroAcc.importAttempts + 1,
          handlerCalls := zeroAcc.handlerCalls + (invokeBody env (HandlerVal.callable f) ev).1 }
        (fun r' hr' => hok r' (List.mem_cons_of_mem _ hr'))
      refine ⟨hrec.1, ?_, ?_, ?_⟩
      · rw [hrec.2.1]
        simp [zeroAcc]
      · refine le_trans hrec.2.2.1 ?_
        have hle := invokeBody_calls_le_one env (HandlerVal.callable f) ev
        simp only [List.length_cons, zeroAcc]
        omega
      · rw [hrec.2.2.2]
        simp [zeroAcc, hid']
    | error e =>
      simp only [hres, (hpost id).2, eq_self_iff_true, if_true]
      have hrec := processEvents_loaded env f hpost rs
        { posts := zeroAcc.posts ++ [⟨id, PostKind.error⟩],
          importAttempts := zeroAcc.importAttempts + 1,
          handlerCalls := zeroAcc.handlerCalls + (invokeBody env (HandlerVal.callable f) ev).1 }
        (fun r' hr' => hok r' (List.mem_cons_of_mem _ hr'))
      refine ⟨hrec.1, ?_, ?_, ?_⟩
      · rw [hrec.2.1]
        simp [zeroAcc]
      · refine le_trans hrec.2.2.1 ?_
        have hle := invokeBody_calls_le_one env (HandlerVal.callable f) ev
        simp only [List.length_cons, zeroAcc]
        omega
      · rw [hrec.2.2.2]
        simp [zeroAcc, hid']

theorem loop_cardinality_when_import_ok_witness :
    (envOk.importHandler = ImportOutcome.callable okHandler
      ∧ (∀ r ∈ [nrOk "aws-1", nrOk "aws-2"],
          r.status = 200 ∧ r.awsRequestId.isSome = true ∧ r.eventParse.isSome = true))
    ∧ (runLoop envOk [nrOk "aws-1", nrOk "aws-2"]).outcome = RunOutcome.scriptDone
    ∧ (runLoop envOk [nrOk "aws-1", nrOk "aws-2"]).importAttempts = 1
    ∧ (runLoop envOk [nrOk "aws-1", nrOk "aws-2"]).handlerCalls ≤ 2
    ∧ (runLoop envOk [nrOk "aws-1", nrOk "aws-2"]).posts.map (fun p => p.awsRequestId)
        = [str "aws-1", str "aws-2"] := by
  have h := loop_cardinality_when_import_ok envOk okHandler [nrOk "aws-1", nrOk "aws-2"]
    rfl (by decide) (fun id => ⟨rfl, rfl⟩)
  refine ⟨⟨rfl, by decide⟩, h.1, ?_, ?_, ?_⟩
  · rw [h.2.1]
    rfl
  · exact h.2.2.1
  · rw [h.2.2.2]
    rfl

end VercelDeno
